import Mathlib

/-!
Verification development for the mboxshell storage and retrieval engine.

The definitions below are shallow embeddings of the Rust sources:
  src/parser/mbox.rs, src/parser/header.rs, src/index/format.rs,
  src/index/builder.rs, src/search/query.rs, src/search/metadata.rs,
  src/search/fulltext.rs, src/tui/threading.rs.

Conventions of the embedding:
  * Rust byte slices are modelled as List Nat (each element a byte value);
    Rust strings are modelled as List Char (abbreviated Str below).  Rust
    string operations index by byte, but every split point used by the
    embedded functions falls on an ASCII delimiter, so splitting at the
    corresponding character position selects the same substrings.
  * Rust u64 / u32 values are Nat, i64 values are Int (conversion from the
    little-endian two's-complement wire format is explicit).
  * chrono DateTime values are modelled as Int nanoseconds since the Unix
    epoch; chronological order is integer order.
  * Fallible operations return Option or Except.
  * Loops are either structural recursions over the remaining input or,
    where the Rust loop advances by a computed amount, recursions on an
    explicit fuel that strictly exceeds the number of iterations the Rust
    loop can perform on that input.
-/

set_option maxRecDepth 4000
set_option maxHeartbeats 1000000

namespace Mboxshell

abbrev Str := List Char

/-- Unicode code points with the White_Space property, as used by Rust
char::is_whitespace and str::trim. -/
def rustIsWhitespace (c : Char) : Bool :=
  c = ' ' || c = '\t' || c = '\n' || c.toNat = 11 || c.toNat = 12 || c = '\r' ||
  c.toNat = 0x85 || c.toNat = 0xA0 || c.toNat = 0x1680 ||
  (0x2000 ≤ c.toNat && c.toNat ≤ 0x200A) ||
  c.toNat = 0x2028 || c.toNat = 0x2029 || c.toNat = 0x202F ||
  c.toNat = 0x205F || c.toNat = 0x3000

/-- str::trim - drop leading and trailing whitespace. -/
def rustTrim (s : Str) : Str :=
  ((s.dropWhile rustIsWhitespace).reverse.dropWhile rustIsWhitespace).reverse

/-- str::trim_start. -/
def rustTrimStart (s : Str) : Str := s.dropWhile rustIsWhitespace

/-- ASCII lowercasing, modelling str::to_lowercase on the inputs the claims
exercise (the Rust function additionally applies the Unicode mapping to
non-ASCII letters). -/
def asciiLowerChar (c : Char) : Char :=
  if 'A' ≤ c ∧ c ≤ 'Z' then Char.ofNat (c.toNat + 32) else c

def asciiLower (s : Str) : Str := s.map asciiLowerChar

def asciiUpperChar (c : Char) : Char :=
  if 'a' ≤ c ∧ c ≤ 'z' then Char.ofNat (c.toNat - 32) else c

def asciiUpper (s : Str) : Str := s.map asciiUpperChar

/-- UTF-8 encoding of one scalar value (str::as_bytes). -/
def utf8EncodeChar (c : Char) : List Nat :=
  let n := c.toNat
  if n < 0x80 then [n]
  else if n < 0x800 then [0xC0 + n / 64, 0x80 + n % 64]
  else if n < 0x10000 then [0xE0 + n / 4096, 0x80 + n / 64 % 64, 0x80 + n % 64]
  else [0xF0 + n / 262144, 0x80 + n / 4096 % 64, 0x80 + n / 64 % 64, 0x80 + n % 64]

def utf8Encode (s : Str) : List Nat := (s.map utf8EncodeChar).flatten

/-- Expected length of a UTF-8 sequence from its lead byte (0 = invalid lead). -/
def utf8SeqLen (b : Nat) : Nat :=
  if b < 0x80 then 1
  else if 0xC2 ≤ b ∧ b ≤ 0xDF then 2
  else if 0xE0 ≤ b ∧ b ≤ 0xEF then 3
  else if 0xF0 ≤ b ∧ b ≤ 0xF4 then 4
  else 0

def utf8ContOk (lead b : Nat) : Bool :=
  if lead = 0xE0 then 0xA0 ≤ b ∧ b ≤ 0xBF
  else if lead = 0xED then 0x80 ≤ b ∧ b ≤ 0x9F
  else if lead = 0xF0 then 0x90 ≤ b ∧ b ≤ 0xBF
  else if lead = 0xF4 then 0x80 ≤ b ∧ b ≤ 0x8F
  else 0x80 ≤ b ∧ b ≤ 0xBF

def utf8Cont (b : Nat) : Bool := 0x80 ≤ b ∧ b ≤ 0xBF

/-- Decode one UTF-8 sequence; returns the scalar and the bytes consumed, or
none at an invalid sequence (the count of bytes forming its maximal valid
prefix is returned alongside for the lossy decoder). -/
def utf8DecodeOne : List Nat → Option (Nat × Nat) × Nat
  | [] => (none, 0)
  | b :: rest =>
    match utf8SeqLen b with
    | 1 => ((b, 1), 0)
    | 2 =>
      match rest with
      | b2 :: _ => if utf8Cont b2 then (((b % 32) * 64 + b2 % 64, 2), 0) else (none, 1)
      | [] => (none, 1)
    | 3 =>
      match rest with
      | b2 :: rest2 =>
        if utf8ContOk b b2 then
          match rest2 with
          | b3 :: _ =>
            if utf8Cont b3 then (((b % 16) * 4096 + (b2 % 64) * 64 + b3 % 64, 3), 0)
            else (none, 2)
          | [] => (none, 2)
        else (none, 1)
      | [] => (none, 1)
    | 4 =>
      match rest with
      | b2 :: rest2 =>
        if utf8ContOk b b2 then
          match rest2 with
          | b3 :: rest3 =>
            if utf8Cont b3 then
              match rest3 with
              | b4 :: _ =>
                if utf8Cont b4 then
                  (((b % 8) * 262144 + (b2 % 64) * 4096 + (b3 % 64) * 64 + b4 % 64, 4), 0)
                else (none, 3)
              | [] => (none, 3)
            else (none, 2)
          | [] => (none, 2)
        else (none, 1)
      | [] => (none, 1)
    | _ => (none, 1)

def charOfScalar (n : Nat) : Char := Char.ofNat n

/-- String::from_utf8_lossy - decode UTF-8, replacing each maximal invalid
subpart with U+FFFD.  Fuelled on the input length (each step consumes at
least one byte). -/
def utf8LossyGo : Nat → List Nat → Str
  | 0, _ => []
  | _, [] => []
  | fuel + 1, l =>
    match utf8DecodeOne l with
    | ((some (n, k)), _) => charOfScalar n :: utf8LossyGo fuel (l.drop k)
    | (none, bad) => Char.ofNat 0xFFFD :: utf8LossyGo fuel (l.drop (max bad 1))

def utf8Lossy (l : List Nat) : Str := utf8LossyGo l.length l

/-- std::str::from_utf8 - strict UTF-8 validation and decoding. -/
def utf8StrictGo : Nat → List Nat → Option Str
  | 0, _ => some []
  | _, [] => some []
  | fuel + 1, l =>
    match utf8DecodeOne l with
    | ((some (n, k)), _) => (utf8StrictGo fuel (l.drop k)).map (charOfScalar n :: ·)
    | (none, _) => none

def utf8Strict (l : List Nat) : Option Str := utf8StrictGo l.length l

/-- Digits of a natural number, most significant first (for format of
indices in synthesised message ids). -/
def natDigitsGo : Nat → Nat → Str
  | 0, _ => []
  | fuel + 1, n =>
    if n < 10 then [Char.ofNat (48 + n)]
    else natDigitsGo fuel (n / 10) ++ [Char.ofNat (48 + n % 10)]

def natToStr (n : Nat) : Str := natDigitsGo (n + 1) n

/-! ## Streaming MBOX parser (src/parser/mbox.rs) -/

/-- The UTF-8 byte-order mark. -/
def bomBytes : List Nat := [0xEF, 0xBB, 0xBF]

/-- The five separator-token bytes, b"From ". -/
def fromToken : List Nat := [70, 114, 111, 109, 32]

/-- is_mbox_separator: strip a BOM if present at the start of the line, then
test for the b"From " prefix.  (The Rust function is applied to every line,
so the BOM is stripped on any line, not only the first of the file.) -/
def is_mbox_separator (line : List Nat) : Bool :=
  let line := if bomBytes.isPrefixOf line then line.drop 3 else line
  fromToken.isPrefixOf line

/-- is_blank_line: only newline, carriage return, space, tab. -/
def is_blank_line (line : List Nat) : Bool :=
  line.all (fun b => b = 10 || b = 13 || b = 32 || b = 9)

/-- Split a byte stream into lines, each including its terminating newline
byte; a final unterminated line is returned as-is.  This models the
fill_buf/consume loop of the parser for files whose lines fit inside the
read buffer.  Fuelled on the input length (each line is nonempty). -/
def splitLinesGo : Nat → List Nat → List (List Nat)
  | 0, _ => []
  | _, [] => []
  | fuel + 1, l =>
    match l.span (· ≠ 10) with
    | (pre, []) => [pre]
    | (pre, _ :: rest) => (pre ++ [10]) :: splitLinesGo fuel rest

def splitLines (l : List Nat) : List (List Nat) := splitLinesGo l.length l

/-- MAX_MESSAGE_SIZE (256 MiB). -/
def maxMessageSize : Nat := 256 * 1024 * 1024

/-- State of the MboxParser::parse loop.  The Rust locals prev_line_was_empty
and first_line only decide which of two identical emit branches runs (they
gate a log warning), so they are not tracked.  delivered is a ghost record
of every callback invocation, in order. -/
structure ParseSt where
  count : Nat
  delivered : List (Nat × List Nat)
  current_offset : Nat
  message_buf : List Nat
  message_start : Nat
deriving Repr

def parseInit : ParseSt := ⟨0, [], 0, [], 0⟩

/-- The line-processing loop of MboxParser::parse, followed by the
final-flush step at end of input.  Returns the count the function returns
together with the ghost delivery record. -/
def parseGo (cb : Nat → List Nat → Bool) : List (List Nat) → ParseSt →
    Nat × List (Nat × List Nat)
  | [], st =>
    if st.message_buf ≠ [] then
      let delivered := st.delivered ++ [(st.message_start, st.message_buf)]
      if cb st.message_start st.message_buf then (st.count + 1, delivered)
      else (st.count, delivered)
    else (st.count, st.delivered)
  | line :: rest, st =>
    if is_mbox_separator line then
      if st.message_buf ≠ [] then
        let delivered := st.delivered ++ [(st.message_start, st.message_buf)]
        if cb st.message_start st.message_buf then
          parseGo cb rest
            { count := st.count + 1, delivered,
              current_offset := st.current_offset + line.length,
              message_buf := line, message_start := st.current_offset }
        else (st.count, delivered)
      else
        parseGo cb rest
          { st with current_offset := st.current_offset + line.length,
                    message_buf := line, message_start := st.current_offset }
    else
      let buf :=
        if st.message_buf.length + line.length ≤ maxMessageSize
        then st.message_buf ++ line else st.message_buf
      parseGo cb rest
        { st with current_offset := st.current_offset + line.length, message_buf := buf }

/-- MboxParser::parse over a whole file. -/
def parseRun (cb : Nat → List Nat → Bool) (file : List Nat) :
    Nat × List (Nat × List Nat) :=
  if file = [] then (0, []) else parseGo cb (splitLines file) parseInit

/-- State of the MboxParser::parse_headers_only loop (same remarks as for
ParseSt).  delivered records (offset, message_length, header_bytes). -/
structure HdrSt where
  count : Nat
  delivered : List (Nat × Nat × List Nat)
  current_offset : Nat
  header_buf : List Nat
  in_headers : Bool
  prev_message_start : Option Nat
  prev_headers : Option (List Nat)
deriving Repr

def hdrInit : HdrSt := ⟨0, [], 0, [], false, none, none⟩

/-- The line-processing loop of MboxParser::parse_headers_only plus the
final flush.  Note that on a separator line the Rust code always calls
prev_headers.take(), so prev_headers is cleared whether or not the previous
message is emitted. -/
def hdrGo (cb : Nat → Nat → List Nat → Bool) : List (List Nat) → HdrSt →
    Nat × List (Nat × Nat × List Nat)
  | [], st =>
    match st.prev_message_start with
    | some pstart =>
      let hdrs := st.prev_headers.getD st.header_buf
      let len := st.current_offset - pstart
      let delivered := st.delivered ++ [(pstart, len, hdrs)]
      if cb pstart len hdrs then (st.count + 1, delivered) else (st.count, delivered)
    | none => (st.count, st.delivered)
  | line :: rest, st =>
    if is_mbox_separator line then
      match st.prev_message_start, st.prev_headers with
      | some pstart, some ph =>
        let len := st.current_offset - pstart
        let delivered := st.delivered ++ [(pstart, len, ph)]
        if cb pstart len ph then
          hdrGo cb rest
            { count := st.count + 1, delivered,
              current_offset := st.current_offset + line.length,
              header_buf := line, in_headers := true,
              prev_message_start := some st.current_offset, prev_headers := none }
        else (st.count, delivered)
      | _, _ =>
        hdrGo cb rest
          { st with current_offset := st.current_offset + line.length,
                    header_buf := line, in_headers := true,
                    prev_message_start := some st.current_offset,
                    prev_headers := none }
    else
      if st.in_headers then
        if is_blank_line line then
          hdrGo cb rest
            { st with current_offset := st.current_offset + line.length,
                      in_headers := false, prev_headers := some st.header_buf,
                      header_buf := [] }
        else
          hdrGo cb rest
            { st with current_offset := st.current_offset + line.length,
                      header_buf := st.header_buf ++ line }
      else
        hdrGo cb rest { st with current_offset := st.current_offset + line.length }

/-- MboxParser::parse_headers_only over a whole file. -/
def hdrRun (cb : Nat → Nat → List Nat → Bool) (file : List Nat) :
    Nat × List (Nat × Nat × List Nat) :=
  if file = [] then (0, []) else hdrGo cb (splitLines file) hdrInit

/-- Spec-side description of the separator token at a record start: the
bytes begin with b"From ", possibly preceded by a UTF-8 BOM. -/
def startsWithSepToken (l : List Nat) : Bool :=
  fromToken.isPrefixOf l || (bomBytes ++ fromToken).isPrefixOf l

/-! ## RFC 2047 encoded-word decoding (src/parser/header.rs) -/

/-- b64val: value of a base64 alphabet character; anything else (including
the padding sign) maps to 0. -/
def b64val (c : Nat) : Nat :=
  if 65 ≤ c ∧ c ≤ 90 then c - 65
  else if 97 ≤ c ∧ c ≤ 122 then c - 97 + 26
  else if 48 ≤ c ∧ c ≤ 57 then c - 48 + 52
  else if c = 43 then 62
  else if c = 47 then 63
  else 0

/-- One 4-character base64 block (already padded to 4 with 61, the pad
sign).  The Rust reader computes the three bytes with wrapping u8 shifts. -/
def b64block (q0 q1 q2 q3 : Nat) : List Nat :=
  let v0 := b64val q0
  let v1 := b64val q1
  let v2 := b64val q2
  let v3 := b64val q3
  let b0 := (v0 * 4) % 256 + v1 / 16
  let b1 := (v1 * 16) % 256 + v2 / 4
  let b2 := (v2 * 64) % 256 + v3
  if q3 = 61 then (if q2 = 61 then [b0] else [b0, b1]) else [b0, b1, b2]

/-- The block loop of the custom base64 reader, after whitespace has been
filtered out (the Rust reader skips space, newline, carriage return and tab
while assembling each block, which is equivalent). -/
def b64blocks : List Nat → List Nat
  | [] => []
  | [a] => b64block a 61 61 61
  | [a, b] => b64block a b 61 61
  | [a, b, c] => b64block a b c 61
  | a :: b :: c :: d :: rest => b64block a b c d ++ b64blocks rest

/-- base64_decode_reader followed by read_to_end (which never fails). -/
def b64decode (input : List Nat) : List Nat :=
  b64blocks (input.filter (fun b => ¬(b = 32 ∨ b = 10 ∨ b = 13 ∨ b = 9)))

def isHexDigit (b : Nat) : Bool :=
  (48 ≤ b ∧ b ≤ 57) || (97 ≤ b ∧ b ≤ 102) || (65 ≤ b ∧ b ≤ 70)

def hexVal (b : Nat) : Nat :=
  if 48 ≤ b ∧ b ≤ 57 then b - 48
  else if 97 ≤ b ∧ b ≤ 102 then b - 97 + 10
  else b - 65 + 10

/-- decode_q_encoding.  The hex branch mirrors u8::from_str_radix applied to
str::from_utf8(two bytes).unwrap_or("00"): two ASCII hex digits parse (a
leading plus sign is also accepted by from_str_radix); a two-byte slice that
is valid UTF-8 but not a hex number leaves the equals sign literal and
advances one byte; a two-byte slice that is not valid UTF-8 becomes the
string "00" and therefore pushes a zero byte. -/
def decode_q_encoding : List Nat → List Nat
  | [] => []
  | 95 :: rest => 32 :: decode_q_encoding rest
  | 61 :: h1 :: h2 :: rest =>
    if isHexDigit h1 ∧ isHexDigit h2 then
      (hexVal h1 * 16 + hexVal h2) :: decode_q_encoding rest
    else if h1 = 43 ∧ isHexDigit h2 then
      hexVal h2 :: decode_q_encoding rest
    else if h1 < 0x80 ∧ h2 < 0x80 then
      61 :: decode_q_encoding (h1 :: h2 :: rest)
    else if 0xC2 ≤ h1 ∧ h1 ≤ 0xDF ∧ utf8Cont h2 then
      61 :: decode_q_encoding (h1 :: h2 :: rest)
    else 0 :: decode_q_encoding rest
  | b :: rest => b :: decode_q_encoding rest

/-- Character table for the Windows-1252 bytes 0x80..0x9F (the remaining
bytes map to the identical code point). -/
def cp1252High (b : Nat) : Nat :=
  match b with
  | 0x80 => 0x20AC | 0x82 => 0x201A | 0x83 => 0x0192 | 0x84 => 0x201E
  | 0x85 => 0x2026 | 0x86 => 0x2020 | 0x87 => 0x2021 | 0x88 => 0x02C6
  | 0x89 => 0x2030 | 0x8A => 0x0160 | 0x8B => 0x2039 | 0x8C => 0x0152
  | 0x8E => 0x017D | 0x91 => 0x2018 | 0x92 => 0x2019 | 0x93 => 0x201C
  | 0x94 => 0x201D | 0x95 => 0x2022 | 0x96 => 0x2013 | 0x97 => 0x2014
  | 0x98 => 0x02DC | 0x99 => 0x2122 | 0x9A => 0x0161 | 0x9B => 0x203A
  | 0x9C => 0x0153 | 0x9E => 0x017E | 0x9F => 0x0178
  | _ => b

def cp1252Decode (bytes : List Nat) : Str :=
  bytes.map (fun b => charOfScalar (cp1252High b))

/-- WHATWG labels for windows-1252 (the subset exercised here; the full
encoding_rs table additionally covers the other single-byte and multi-byte
encodings, all unexercised by these claims and treated as unknown). -/
def cp1252Labels : List Str :=
  [['w','i','n','d','o','w','s','-','1','2','5','2'],
   ['c','p','1','2','5','2'],
   ['x','-','c','p','1','2','5','2'],
   ['i','s','o','-','8','8','5','9','-','1'],
   ['i','s','o','8','8','5','9','-','1'],
   ['i','s','o','8','8','5','9','1'],
   ['l','a','t','i','n','1'],
   ['l','1'],
   ['a','s','c','i','i'],
   ['u','s','-','a','s','c','i','i'],
   ['a','n','s','i','_','x','3','.','4','-','1','9','6','8'],
   ['c','s','i','s','o','l','a','t','i','n','1']]

/-- decode_charset: utf-8 labels decode lossily as UTF-8; otherwise look the
label up in the WHATWG table (modelled for the windows-1252 family); unknown
labels fall back to lossy UTF-8. -/
def decode_charset (charset : Str) (bytes : List Nat) : Str :=
  let lower := asciiLower charset
  if lower = ['u','t','f','-','8'] ∨ lower = ['u','t','f','8'] then utf8Lossy bytes
  else if cp1252Labels.contains (asciiLower (rustTrim charset)) then cp1252Decode bytes
  else utf8Lossy bytes

/-- Position of the first question mark. -/
def splitOnQ : Str → Option (Str × Str)
  | [] => none
  | c :: rest =>
    if c = '?' then some ([], rest)
    else (splitOnQ rest).map (fun p => (c :: p.1, p.2))

/-- Index of the first occurrence of the two characters ?= . -/
def findQEq : Str → Option Nat
  | '?' :: '=' :: _ => some 0
  | _ :: rest => (findQEq rest).map (· + 1)
  | [] => none

/-- Index of the first occurrence of the two characters =? . -/
def findEqQ : Str → Option Nat
  | [] => none
  | c :: rest =>
    if c = '=' ∧ rest.head? = some '?' then some 0
    else (findEqQ rest).map (· + 1)

/-- try_decode_one_word: s is the text following an initial =? marker.
Returns the decoded text and the number of characters consumed from s.
The B branch never fails (the custom base64 reader always succeeds), the Q
branch never fails; an unknown encoding fails. -/
def try_decode_one_word (s : Str) : Option (Str × Nat) :=
  match splitOnQ s with
  | none => none
  | some (charset, rest) =>
    match splitOnQ rest with
    | none => none
    | some (encoding, rest2) =>
      match findQEq rest2 with
      | none => none
      | some endIdx =>
        let encoded_text := rest2.take endIdx
        let consumed := charset.length + 1 + encoding.length + 1 + endIdx + 2
        let bytes :=
          if asciiUpper encoding = ['B'] then some (b64decode (utf8Encode encoded_text))
          else if asciiUpper encoding = ['Q'] then
            some (decode_q_encoding (utf8Encode encoded_text))
          else none
        bytes.map (fun bs => (decode_charset charset bs, consumed))

/-- The scanning loop of decode_encoded_words.  Fuelled: every iteration
removes at least the two marker characters from the remaining input, so any
fuel exceeding half the input length is enough. -/
def decodeLoop : Nat → Str → Bool → Str
  | 0, remaining, _ => remaining
  | fuel + 1, remaining, lastWasEncoded =>
    match findEqQ remaining with
    | none => remaining
    | some start =>
      let before := remaining.take start
      let afterStart := remaining.drop (start + 2)
      let kept := if lastWasEncoded ∧ (rustTrim before).isEmpty then [] else before
      match try_decode_one_word afterStart with
      | some (text, consumed) =>
        kept ++ text ++ decodeLoop fuel (afterStart.drop consumed) true
      | none => kept ++ '=' :: '?' :: decodeLoop fuel afterStart false

/-- decode_encoded_words. -/
def decode_encoded_words (input : Str) : Str :=
  decodeLoop (input.length + 1) input false

/-- decodeLoop with its canonical fuel, for stating properties of the scan
from an arbitrary intermediate state. -/
def decodeFrom (remaining : Str) (lastWasEncoded : Bool) : Str :=
  decodeLoop (remaining.length + 1) remaining lastWasEncoded

/-! ## Data model (src/model/mail.rs, src/model/address.rs) -/

structure EmailAddress where
  display_name : Str
  address : Str
deriving Repr, DecidableEq

/-- MailEntry.  The date is nanoseconds since the Unix epoch (chronological
order of chrono DateTime values is integer order of this field).  The Rust
fields named from and to are called sender and toRecipients here because from and to are Lean keywords. -/
structure MailEntry where
  offset : Nat
  length : Nat
  date : Int
  sender : EmailAddress
  toRecipients : List EmailAddress
  cc : List EmailAddress
  subject : Str
  message_id : Str
  in_reply_to : Option Str
  references : List Str
  has_attachments : Bool
  content_type : Str
  text_size : Nat
  labels : List Str
  sequence : Nat
deriving Repr, DecidableEq

def defaultMailEntry : MailEntry :=
  ⟨0, 0, 0, ⟨[], []⟩, [], [], [], [], none, [], false, [], 0, [], 0⟩

structure AttachmentMeta where
  filename : Str
  content_type : Str
  size : Nat
  encoding : Str
  content_id : Option Str
  is_inline : Bool
  content_offset : Nat
  content_length : Nat
deriving Repr, DecidableEq

structure MailBody where
  text : Option Str
  html : Option Str
  raw_headers : Str
  attachments : List AttachmentMeta
deriving Repr, DecidableEq

/-! ## Calendar arithmetic (models chrono date handling) -/

def isLeapYear (y : Int) : Bool := y % 4 = 0 ∧ (y % 100 ≠ 0 ∨ y % 400 = 0)

def daysInMonth (y : Int) (m : Nat) : Nat :=
  if m = 2 then (if isLeapYear y then 29 else 28)
  else if m = 4 ∨ m = 6 ∨ m = 9 ∨ m = 11 then 30
  else 31

/-- Days since 1970-01-01 of a civil date (Hinnant's algorithm). -/
def daysFromCivil (y : Int) (m d : Nat) : Int :=
  let yAdj : Int := y - (if m ≤ 2 then 1 else 0)
  let era : Int := Int.fdiv yAdj 400
  let yoe : Int := yAdj - era * 400
  let mp : Nat := (m + 9) % 12
  let doy : Int := ((153 * (mp : Int) + 2) / 5) + (d : Int) - 1
  let doe : Int := yoe * 365 + yoe / 4 - yoe / 100 + doy
  era * 146097 + doe - 719468

/-- Civil date (year, month, day) of a days-since-epoch count. -/
def civilFromDays (z : Int) : Int × Nat × Nat :=
  let zAdj : Int := z + 719468
  let era : Int := Int.fdiv zAdj 146097
  let doe : Nat := (zAdj - era * 146097).toNat
  let yoe : Nat := (doe - doe / 1460 + doe / 36524 - doe / 146096) / 365
  let doy : Nat := doe - (365 * yoe + yoe / 4 - yoe / 100)
  let mp : Nat := (5 * doy + 2) / 153
  let d : Nat := doy - (153 * mp + 2) / 5 + 1
  let m : Nat := if mp < 10 then mp + 3 else mp - 9
  let y : Int := (yoe : Int) + era * 400 + (if m ≤ 2 then 1 else 0)
  (y, m, d)

/-- NaiveDate of a DateTime (date_naive), as (year, month, day); the
chronological order on valid dates is lexicographic. -/
def dateNaiveOf (nanos : Int) : Int × Nat × Nat :=
  civilFromDays (Int.fdiv (Int.fdiv nanos 1000000000) 86400)

def ymdLe (a b : Int × Nat × Nat) : Bool :=
  a.1 < b.1 ∨ (a.1 = b.1 ∧ (a.2.1 < b.2.1 ∨ (a.2.1 = b.2.1 ∧ a.2.2 ≤ b.2.2)))

def ymdLt (a b : Int × Nat × Nat) : Bool :=
  a.1 < b.1 ∨ (a.1 = b.1 ∧ (a.2.1 < b.2.1 ∨ (a.2.1 = b.2.1 ∧ a.2.2 < b.2.2)))

/-! ## RFC 3339 parsing (models the chrono serde deserialisation of a
DateTime, which reads the string form written by serialisation) -/

def digitVal (c : Char) : Option Nat :=
  if '0' ≤ c ∧ c ≤ '9' then some (c.toNat - 48) else none

def readDigits : Nat → Str → Option (Nat × Str)
  | 0, s => some (0, s)
  | _ + 1, [] => none
  | n + 1, c :: rest =>
    match digitVal c with
    | none => none
    | some v =>
      match readDigits n rest with
      | none => none
      | some (rv, s) => some (v * 10 ^ n + rv, s)

def readLit (c : Char) : Str → Option Str
  | [] => none
  | x :: rest => if x = c then some rest else none

/-- Read an optional fractional part after the seconds. -/
def readFraction : Str → Nat × Str
  | '.' :: rest =>
    let digits := rest.takeWhile (fun c => (digitVal c).isSome)
    let rest2 := rest.dropWhile (fun c => (digitVal c).isSome)
    if digits = [] then (0, '.' :: rest)
    else
      let nine := (digits.take 9) ++ List.replicate (9 - digits.length) '0'
      (nine.foldl (fun acc c => acc * 10 + ((digitVal c).getD 0)) 0, rest2)
  | s => (0, s)

def readOffset : Str → Option (Int × Str)
  | 'Z' :: rest => some (0, rest)
  | 'z' :: rest => some (0, rest)
  | '+' :: rest =>
    match readDigits 2 rest with
    | some (h, s1) =>
      match readLit ':' s1 with
      | some s2 =>
        match readDigits 2 s2 with
        | some (m, s3) => if h ≤ 23 ∧ m ≤ 59 then some ((h * 3600 + m * 60 : Nat), s3) else none
        | none => none
      | none => none
    | none => none
  | '-' :: rest =>
    match readDigits 2 rest with
    | some (h, s1) =>
      match readLit ':' s1 with
      | some s2 =>
        match readDigits 2 s2 with
        | some (m, s3) =>
          if h ≤ 23 ∧ m ≤ 59 then some (-((h * 3600 + m * 60 : Nat) : Int), s3) else none
        | none => none
      | none => none
    | none => none
  | _ => none

/-- Parse an RFC 3339 timestamp to nanoseconds since the epoch.  A leap
second (seconds field 60) is folded into the nanosecond field the way
chrono stores it. -/
def rfc3339ToNanos (s : Str) : Option Int :=
  match readDigits 4 s with
  | none => none
  | some (y, s1) =>
  match readLit '-' s1 with
  | none => none
  | some s2 =>
  match readDigits 2 s2 with
  | none => none
  | some (mo, s3) =>
  match readLit '-' s3 with
  | none => none
  | some s4 =>
  match readDigits 2 s4 with
  | none => none
  | some (dy, s5) =>
  match s5 with
  | [] => none
  | sep :: s6 =>
    if ¬(sep = 'T' ∨ sep = 't' ∨ sep = ' ') then none
    else
    match readDigits 2 s6 with
    | none => none
    | some (hh, s7) =>
    match readLit ':' s7 with
    | none => none
    | some s8 =>
    match readDigits 2 s8 with
    | none => none
    | some (mi, s9) =>
    match readLit ':' s9 with
    | none => none
    | some s10 =>
    match readDigits 2 s10 with
    | none => none
    | some (ss, s11) =>
      let (frac, s12) := readFraction s11
      match readOffset s12 with
      | none => none
      | some (off, s13) =>
        if s13 ≠ [] then none
        else if ¬(1 ≤ mo ∧ mo ≤ 12 ∧ 1 ≤ dy ∧ dy ≤ daysInMonth y mo ∧
                  hh ≤ 23 ∧ mi ≤ 59 ∧ ss ≤ 60) then none
        else
          let ssAdj : Nat := min ss 59
          let leapExtra : Int := if ss = 60 then 1000000000 else 0
          let secs : Int :=
            daysFromCivil y mo dy * 86400 + (hh * 3600 + mi * 60 + ssAdj : Nat) - off
          some (secs * 1000000000 + frac + leapExtra)

/-! ## bincode wire format (models the bincode 1.x fixed-int little-endian
encoding used by the index file; the legacy deserialize entry point allows
trailing bytes) -/

def ExceptP (α : Type) : Type := Except String (α × List Nat)

def pBind (r : ExceptP α) (f : α → List Nat → ExceptP β) : ExceptP β :=
  match r with
  | .error e => .error e
  | .ok (a, rest) => f a rest

def pChunk (n : Nat) (data : List Nat) : ExceptP (List Nat) :=
  if data.length < n then .error "unexpected end of input"
  else .ok (data.take n, data.drop n)

/-- Little-endian value of a byte list (first byte least significant). -/
def leVal (bytes : List Nat) : Nat :=
  bytes.foldr (fun b acc => b + 256 * acc) 0

def pU64 (data : List Nat) : ExceptP Nat :=
  pBind (pChunk 8 data) fun bs rest => .ok (leVal bs, rest)

def pU32 (data : List Nat) : ExceptP Nat :=
  pBind (pChunk 4 data) fun bs rest => .ok (leVal bs, rest)

def pI64 (data : List Nat) : ExceptP Int :=
  pBind (pChunk 8 data) fun bs rest =>
    let v := leVal bs
    .ok ((if v < 2 ^ 63 then (v : Int) else (v : Int) - 2 ^ 64), rest)

def pBool (data : List Nat) : ExceptP Bool :=
  match data with
  | [] => .error "unexpected end of input"
  | 0 :: rest => .ok (false, rest)
  | 1 :: rest => .ok (true, rest)
  | _ :: _ => .error "invalid bool encoding"

def pString (data : List Nat) : ExceptP Str :=
  pBind (pU64 data) fun n rest =>
  pBind (pChunk n rest) fun bs rest2 =>
    match utf8Strict bs with
    | some s => .ok (s, rest2)
    | none => .error "invalid utf-8 string"

def pOption (p : List Nat → ExceptP α) (data : List Nat) : ExceptP (Option α) :=
  match data with
  | [] => .error "unexpected end of input"
  | 0 :: rest => .ok (none, rest)
  | 1 :: rest => pBind (p rest) fun a rest2 => .ok (some a, rest2)
  | _ :: _ => .error "invalid tag encoding"

def pTimes (p : List Nat → ExceptP α) : Nat → List Nat → ExceptP (List α)
  | 0, data => .ok ([], data)
  | n + 1, data =>
    pBind (p data) fun a rest =>
    pBind (pTimes p n rest) fun l rest2 => .ok (a :: l, rest2)

def pVec (p : List Nat → ExceptP α) (data : List Nat) : ExceptP (List α) :=
  pBind (pU64 data) fun n rest => pTimes p n rest

def pDateTime (data : List Nat) : ExceptP Int :=
  pBind (pString data) fun s rest =>
    match rfc3339ToNanos s with
    | some v => .ok (v, rest)
    | none => .error "invalid rfc 3339 datetime"

def pEmailAddress (data : List Nat) : ExceptP EmailAddress :=
  pBind (pString data) fun dn rest =>
  pBind (pString rest) fun ad rest2 => .ok (⟨dn, ad⟩, rest2)

/-- Field-by-field bincode deserialisation of MailEntry, in declaration
order of the Rust struct. -/
def pMailEntry (data : List Nat) : ExceptP MailEntry :=
  pBind (pU64 data) fun offset r1 =>
  pBind (pU64 r1) fun length r2 =>
  pBind (pDateTime r2) fun date r3 =>
  pBind (pEmailAddress r3) fun sender r4 =>
  pBind (pVec pEmailAddress r4) fun toRecipients r5 =>
  pBind (pVec pEmailAddress r5) fun cc r6 =>
  pBind (pString r6) fun subject r7 =>
  pBind (pString r7) fun message_id r8 =>
  pBind (pOption pString r8) fun in_reply_to r9 =>
  pBind (pVec pString r9) fun references r10 =>
  pBind (pBool r10) fun has_attachments r11 =>
  pBind (pString r11) fun content_type r12 =>
  pBind (pU64 r12) fun text_size r13 =>
  pBind (pVec pString r13) fun labels r14 =>
  pBind (pU64 r14) fun sequence r15 =>
    .ok (⟨offset, length, date, sender, toRecipients, cc, subject, message_id, in_reply_to,
          references, has_attachments, content_type, text_size, labels, sequence⟩, r15)

/-! ## Persistent index (src/index/format.rs, src/index/builder.rs) -/

/-- MAGIC = b"MBOXTUI\x00". -/
def magicBytes : List Nat := [77, 66, 79, 88, 84, 85, 73, 0]

def indexVersion : Nat := 1

def headerSize : Nat := 128

structure IndexHeader where
  magic : List Nat
  version : Nat
  flags : Nat
  message_count : Nat
  mbox_file_size : Nat
  mbox_modified_time : Int
  sha256_first_4kb : List Nat
deriving Repr, DecidableEq

/-- IndexHeader::validate. -/
def validateHeader (h : IndexHeader) : Bool :=
  h.magic = magicBytes ∧ h.version = indexVersion

/-- bincode deserialisation of IndexHeader (trailing padding allowed). -/
def deserHeader (data : List Nat) : Except String IndexHeader :=
  match
    pBind (pChunk 8 data) fun magic r1 =>
    pBind (pU32 r1) fun version r2 =>
    pBind (pU32 r2) fun flags r3 =>
    pBind (pU64 r3) fun message_count r4 =>
    pBind (pU64 r4) fun mbox_file_size r5 =>
    pBind (pI64 r5) fun mbox_modified_time r6 =>
    pBind (pChunk 32 r6) fun sha r7 =>
      (.ok (⟨magic, version, flags, message_count, mbox_file_size,
            mbox_modified_time, sha⟩, r7) : ExceptP IndexHeader)
  with
  | .ok (h, _) => .ok h
  | .error e => .error e

/-- bincode deserialisation of the record vector (trailing bytes allowed). -/
def deserEntries (data : List Nat) : Except String (List MailEntry) :=
  match pVec pMailEntry data with
  | .ok (es, _) => .ok es
  | .error e => .error e

/-- load_index_from_file.  The file reads performed by the Rust function are
modelled by passing their results in: data is the content of the index file,
liveSize / liveMtime are the live archive metadata values the function
computes, and liveHash is the value of sha256_first_n on the live archive
(I/O failures of those reads, which the Rust function propagates as errors,
are outside this model). -/
def load_index_from_file (data : List Nat) (liveSize : Nat) (liveMtime : Int)
    (liveHash : List Nat) : Except String (Option (List MailEntry)) :=
  if data.length < headerSize then .ok none
  else
    match deserHeader (data.take headerSize) with
    | .error _ => .error "Header deserialization failed"
    | .ok header =>
      if ¬ validateHeader header then .ok none
      else if header.mbox_file_size ≠ liveSize then .ok none
      else if header.mbox_modified_time ≠ liveMtime then .ok none
      else if header.sha256_first_4kb ≠ liveHash then .ok none
      else
        match deserEntries (data.drop headerSize) with
        | .error _ => .error "Entry deserialization failed"
        | .ok entries =>
          if entries.length ≠ header.message_count then .ok none
          else .ok (some entries)

/-! ## Query model (src/search/query.rs) -/

inductive SearchField
  | all | fromF | toF | ccF | subjectF | body | label | filename | messageId
deriving Repr, DecidableEq

inductive SearchOperator
  | contains (s : Str)
  | exact (s : Str)
deriving Repr, DecidableEq

structure SearchTerm where
  field : SearchField
  operator : SearchOperator
  negated : Bool
deriving Repr, DecidableEq

/-- Dates inside filters are chrono NaiveDate values, modelled as
(year, month, day) triples. -/
abbrev Ymd := Int × Nat × Nat

inductive DateFilter
  | exact (d : Ymd)
  | range (s e : Ymd)
  | before (d : Ymd)
  | after (d : Ymd)
  | month (y : Int) (m : Nat)
  | year (y : Int)
deriving Repr, DecidableEq

inductive SizeFilter
  | greaterThan (n : Nat)
  | lessThan (n : Nat)
deriving Repr, DecidableEq

structure SearchQuery where
  terms : List SearchTerm
  date_filter : Option DateFilter
  size_filter : Option SizeFilter
  has_attachment : Option Bool
  needs_fulltext : Bool
  is_or : Bool
deriving Repr, DecidableEq

/-- tokenize: split on whitespace outside double quotes (quote characters
are kept in the token). -/
def tokenizeGo : Str → Str → Bool → List Str
  | [], current, _ => if current = [] then [] else [current]
  | ch :: rest, current, inq =>
    if ch = '"' then tokenizeGo rest (current ++ [ch]) (! inq)
    else if rustIsWhitespace ch ∧ ¬ inq then
      if current ≠ [] then current :: tokenizeGo rest [] inq
      else tokenizeGo rest [] inq
    else tokenizeGo rest (current ++ [ch]) inq

def tokenize (input : Str) : List Str := tokenizeGo input [] false

/-- str::strip_prefix for a literal pattern. -/
def stripPref (p s : Str) : Option Str :=
  if p.isPrefixOf s then some (s.drop p.length) else none

/-- str::strip_suffix for a literal pattern. -/
def stripSuff (p s : Str) : Option Str :=
  if p.isSuffixOf s then some (s.take (s.length - p.length)) else none

/-- make_operator: a value that both starts and ends with a double quote
becomes an exact match on the unquoted text, anything else a substring
match; the needle is lowercased either way. -/
def make_operator (value : Str) : SearchOperator :=
  let unquoted := ((stripPref ['"'] value).bind (stripSuff ['"'])).getD value
  if (['"'].isPrefixOf value) ∧ (['"'].isSuffixOf value) then
    .exact (asciiLower unquoted)
  else .contains (asciiLower unquoted)

def digitsVal (digits : Str) : Nat :=
  digits.foldl (fun acc c => acc * 10 + (digitVal c).getD 0) 0

def allDigits (digits : Str) : Bool :=
  digits ≠ [] && digits.all (fun c => (digitVal c).isSome)

/-- str::parse for i32 (optional sign, at least one digit, range check). -/
def parseI32 (s : Str) : Option Int :=
  let neg : Bool := match s with | '-' :: _ => true | _ => false
  let digits : Str := match s with
    | '+' :: rest => rest
    | '-' :: rest => rest
    | _ => s
  if ! allDigits digits then none
  else
    let iv : Int := if neg then -(digitsVal digits : Int) else (digitsVal digits : Int)
    if -(2 ^ 31) ≤ iv ∧ iv < 2 ^ 31 then some iv else none

/-- str::parse for u32 (optional plus sign, digits, range check). -/
def parseU32 (s : Str) : Option Nat :=
  let digits : Str := match s with | '+' :: rest => rest | _ => s
  let neg : Bool := match s with | '-' :: _ => true | _ => false
  if neg || ! allDigits digits then none
  else if digitsVal digits < 2 ^ 32 then some (digitsVal digits) else none

/-- str::parse for u64. -/
def parseU64 (s : Str) : Option Nat :=
  let digits : Str := match s with | '+' :: rest => rest | _ => s
  let neg : Bool := match s with | '-' :: _ => true | _ => false
  if neg || ! allDigits digits then none
  else if digitsVal digits < 2 ^ 64 then some (digitsVal digits) else none

/-- chrono NaiveDate year range. -/
def chronoMinYear : Int := -262144

def chronoMaxYear : Int := 262142

/-- NaiveDate::from_ymd_opt. -/
def fromYmdOpt (y : Int) (m d : Nat) : Option Ymd :=
  if chronoMinYear ≤ y ∧ y ≤ chronoMaxYear ∧ 1 ≤ m ∧ m ≤ 12 ∧ 1 ≤ d ∧
     d ≤ daysInMonth y m
  then some (y, m, d) else none

/-- NaiveDate::pred_opt - the previous day. -/
def predYmd (d : Ymd) : Option Ymd :=
  if d.2.2 > 1 then some (d.1, d.2.1, d.2.2 - 1)
  else if d.2.1 > 1 then some (d.1, d.2.1 - 1, daysInMonth d.1 (d.2.1 - 1))
  else if d.1 > chronoMinYear then some (d.1 - 1, 12, 31)
  else none

/-- NaiveDate::parse_from_str with the %Y-%m-%d format: a 1-4 digit year,
1-2 digit month and day, nothing trailing, calendar-valid. -/
def parse_naive_date (s : Str) : Option Ymd :=
  let (ys, r1) := s.span (fun c => (digitVal c).isSome)
  if ys = [] ∨ ys.length > 4 then none
  else
    match r1 with
    | '-' :: r2 =>
      let (ms, r3) := r2.span (fun c => (digitVal c).isSome)
      if ms = [] ∨ ms.length > 2 then none
      else
        match r3 with
        | '-' :: r4 =>
          let (ds, r5) := r4.span (fun c => (digitVal c).isSome)
          if ds = [] ∨ ds.length > 2 ∨ r5 ≠ [] then none
          else
            let num := fun (l : Str) => l.foldl (fun acc c => acc * 10 + (digitVal c).getD 0) 0
            fromYmdOpt (num ys : Nat) (num ms) (num ds)
        | _ => none
    | _ => none

/-- str::split for a single-character pattern (keeps empty parts). -/
def splitAllChar (c : Char) : Str → List Str
  | [] => [[]]
  | x :: rest =>
    let ps := splitAllChar c rest
    if x = c then [] :: ps
    else
      match ps with
      | p :: pr => (x :: p) :: pr
      | [] => [[x]]

/-- str::split_once for the two-character pattern consisting of two dots. -/
def splitOnceDots : Str → Option (Str × Str)
  | '.' :: '.' :: rest => some ([], rest)
  | c :: rest => (splitOnceDots rest).map (fun p => (c :: p.1, p.2))
  | [] => none

/-- parse_flexible_date_start. -/
def parse_flexible_date_start (s : Str) : Option Ymd :=
  match parse_naive_date s with
  | some d => some d
  | none =>
    match splitAllChar '-' s with
    | [p0, p1] =>
      (parseI32 p0).bind fun y => (parseU32 p1).bind fun m => fromYmdOpt y m 1
    | [p0] => (parseI32 p0).bind fun y => fromYmdOpt y 1 1
    | _ => none

/-- parse_flexible_date_end. -/
def parse_flexible_date_end (s : Str) : Option Ymd :=
  match parse_naive_date s with
  | some d => some d
  | none =>
    match splitAllChar '-' s with
    | [p0, p1] =>
      (parseI32 p0).bind fun y => (parseU32 p1).bind fun m =>
        let ny := if m = 12 then y + 1 else y
        let nm := if m = 12 then 1 else m + 1
        (fromYmdOpt ny nm 1).bind predYmd
    | [p0] => (parseI32 p0).bind fun y => fromYmdOpt y 12 31
    | _ => none

/-- parse_date_filter. -/
def parse_date_filter (value : Str) : Option DateFilter :=
  match splitOnceDots value with
  | some (s, e) =>
    (parse_flexible_date_start s).bind fun sd =>
    (parse_flexible_date_end e).map fun ed => DateFilter.range sd ed
  | none =>
    match parse_naive_date value with
    | some d => some (.exact d)
    | none =>
      match splitAllChar '-' value with
      | [p0, p1] =>
        (parseI32 p0).bind fun y => (parseU32 p1).bind fun m =>
          if 1 ≤ m ∧ m ≤ 12 then some (.month y m) else none
      | [p0] =>
        (parseI32 p0).bind fun y =>
          if 1970 ≤ y ∧ y ≤ 2100 then some (.year y) else none
      | _ => none

/-- parse_size_filter (the Rust multiplication is in u64; query literals
stay far below the overflow range). -/
def parse_size_filter (value : Str) : Option SizeFilter :=
  let dir : Option (Bool × Str) :=
    match value with
    | '>' :: rest => some (true, rest)
    | '<' :: rest => some (false, rest)
    | _ => none
  match dir with
  | none => none
  | some (cmp, rest) =>
    let rl := asciiLower rest
    let nm : Str × Nat :=
      match stripSuff ['g','b'] rl with
      | some n => (n, 1024 * 1024 * 1024)
      | none =>
        match stripSuff ['m','b'] rl with
        | some n => (n, 1024 * 1024)
        | none =>
          match stripSuff ['k','b'] rl with
          | some n => (n, 1024)
          | none =>
            match stripSuff ['b'] rl with
            | some n => (n, 1)
            | none => (rl, 1)
    (parseU64 nm.1).map fun num =>
      if cmp then .greaterThan (num * nm.2) else .lessThan (num * nm.2)

def emptyQuery (is_or : Bool) : SearchQuery :=
  ⟨[], none, none, none, false, is_or⟩

def kwFrom : Str := ['f','r','o','m',':']
def kwTo : Str := ['t','o',':']
def kwCc : Str := ['c','c',':']
def kwSubject : Str := ['s','u','b','j','e','c','t',':']
def kwBody : Str := ['b','o','d','y',':']
def kwLabel : Str := ['l','a','b','e','l',':']
def kwFilename : Str := ['f','i','l','e','n','a','m','e',':']
def kwId : Str := ['i','d',':']
def kwHas : Str := ['h','a','s',':']
def kwDate : Str := ['d','a','t','e',':']
def kwBefore : Str := ['b','e','f','o','r','e',':']
def kwAfter : Str := ['a','f','t','e','r',':']
def kwSize : Str := ['s','i','z','e',':']

def pushTerm (acc : SearchQuery) (f : SearchField) (value : Str) (negated : Bool) :
    SearchQuery :=
  { acc with terms := acc.terms ++ [⟨f, make_operator value, negated⟩] }

/-- The body of the token loop of parse_query. -/
def applyToken (acc : SearchQuery) (token : Str) : SearchQuery :=
  if token = ['O','R'] then acc
  else
    let neg : Bool × Str :=
      match token with
      | '-' :: rest => (true, rest)
      | _ => (false, token)
    let negated := neg.1
    let tok := neg.2
    match stripPref kwFrom tok with
    | some v => pushTerm acc .fromF v negated
    | none =>
    match stripPref kwTo tok with
    | some v => pushTerm acc .toF v negated
    | none =>
    match stripPref kwCc tok with
    | some v => pushTerm acc .ccF v negated
    | none =>
    match stripPref kwSubject tok with
    | some v => pushTerm acc .subjectF v negated
    | none =>
    match stripPref kwBody tok with
    | some v => pushTerm { acc with needs_fulltext := true } .body v negated
    | none =>
    match stripPref kwLabel tok with
    | some v => pushTerm acc .label v negated
    | none =>
    match stripPref kwFilename tok with
    | some v => pushTerm { acc with needs_fulltext := true } .filename v negated
    | none =>
    match stripPref kwId tok with
    | some v => pushTerm acc .messageId v negated
    | none =>
    match stripPref kwHas tok with
    | some v =>
      if v = ['a','t','t','a','c','h','m','e','n','t'] ∨
         v = ['a','t','t','a','c','h','m','e','n','t','s'] then
        { acc with has_attachment := some (! negated) }
      else if v = ['n','o','-','a','t','t','a','c','h','m','e','n','t'] ∨
              v = ['n','o','-','a','t','t','a','c','h','m','e','n','t','s'] then
        { acc with has_attachment := some negated }
      else acc
    | none =>
    match stripPref kwDate tok with
    | some v => { acc with date_filter := parse_date_filter v }
    | none =>
    match stripPref kwBefore tok with
    | some v =>
      match parse_naive_date v with
      | some d => { acc with date_filter := some (.before d) }
      | none => acc
    | none =>
    match stripPref kwAfter tok with
    | some v =>
      match parse_naive_date v with
      | some d => { acc with date_filter := some (.after d) }
      | none => acc
    | none =>
    match stripPref kwSize tok with
    | some v => { acc with size_filter := parse_size_filter v }
    | none => pushTerm acc .all tok negated

/-- parse_query. -/
def parse_query (input : Str) : SearchQuery :=
  let input := rustTrim input
  let tokens := tokenize input
  let is_or := tokens.contains ['O','R']
  tokens.foldl applyToken (emptyQuery is_or)

/-! ## Metadata search (src/search/metadata.rs) -/

/-- str::contains for a literal pattern: the needle occurs as a contiguous
substring of the haystack. -/
def strContains (hay needle : Str) : Bool :=
  match hay with
  | [] => needle.isEmpty
  | _ :: rest => needle.isPrefixOf hay || strContains rest needle

/-- matches_text: case-insensitive (the needle was lowercased when the
query was parsed). -/
def matches_text (haystack : Str) (op : SearchOperator) : Bool :=
  let hl := asciiLower haystack
  match op with
  | .contains needle => strContains hl needle
  | .exact phrase => hl = phrase

/-- matches_date. -/
def matches_date (entry : MailEntry) (filter : DateFilter) : Bool :=
  let date := dateNaiveOf entry.date
  match filter with
  | .exact d => date = d
  | .range s e => ymdLe s date ∧ ymdLe date e
  | .before d => ymdLt date d
  | .after d => ymdLt d date
  | .month y m => date.1 = y ∧ date.2.1 = m
  | .year y => date.1 = y

/-- matches_size. -/
def matches_size (entry : MailEntry) (filter : SizeFilter) : Bool :=
  match filter with
  | .greaterThan t => entry.length > t
  | .lessThan t => entry.length < t

/-- term_matches_entry. -/
def term_matches_entry (entry : MailEntry) (term : SearchTerm) : Bool :=
  let raw :=
    match term.field with
    | .all =>
      matches_text entry.subject term.operator ||
      matches_text entry.sender.address term.operator ||
      matches_text entry.sender.display_name term.operator ||
      entry.toRecipients.any (fun a => matches_text a.address term.operator) ||
      entry.toRecipients.any (fun a => matches_text a.display_name term.operator)
    | .fromF =>
      matches_text entry.sender.address term.operator ||
      matches_text entry.sender.display_name term.operator
    | .toF =>
      entry.toRecipients.any (fun a =>
        matches_text a.address term.operator || matches_text a.display_name term.operator)
    | .ccF =>
      entry.cc.any (fun a =>
        matches_text a.address term.operator || matches_text a.display_name term.operator)
    | .subjectF => matches_text entry.subject term.operator
    | .label => entry.labels.any (fun l => matches_text l term.operator)
    | .messageId => matches_text entry.message_id term.operator
    | .body => true
    | .filename => true
  if term.negated then ! raw else raw

def isBodyOrFilename (t : SearchTerm) : Bool :=
  t.field = SearchField.body ∨ t.field = SearchField.filename

/-- entry_matches. -/
def entry_matches (entry : MailEntry) (query : SearchQuery) : Bool :=
  let dateOk := match query.date_filter with
    | some df => matches_date entry df
    | none => true
  if ! dateOk then false
  else
    let sizeOk := match query.size_filter with
      | some sf => matches_size entry sf
      | none => true
    if ! sizeOk then false
    else
      let attOk := match query.has_attachment with
        | some want => entry.has_attachments = want
        | none => true
      if ! attOk then false
      else
        let text_terms := query.terms.filter (fun t => ¬ isBodyOrFilename t)
        if text_terms = [] then true
        else if query.is_or then text_terms.any (term_matches_entry entry)
        else text_terms.all (term_matches_entry entry)

/-- search_metadata: indices of the matching entries, in entry order. -/
def search_metadata (entries : List MailEntry) (query : SearchQuery) : List Nat :=
  (entries.enum.filter (fun p => entry_matches p.2 query)).map (·.1)

/-! ## Full-text search (src/search/fulltext.rs) -/

/-- The check_term closure of check_body_match, applied to the lowercased
plain text and the attachment list of a body.  For a body term a quoted
phrase is tested with contains, exactly as the source does. -/
def check_term_body (textLower : Str) (atts : List AttachmentMeta)
    (term : SearchTerm) : Bool :=
  let raw :=
    match term.field with
    | .body =>
      match term.operator with
      | .contains needle => strContains textLower needle
      | .exact phrase => strContains textLower phrase
    | .filename =>
      atts.any (fun att =>
        let fname := asciiLower att.filename
        match term.operator with
        | .contains needle => strContains fname needle
        | .exact phrase => fname = phrase)
    | _ => true
  if term.negated then ! raw else raw

/-- check_body_match.  getBody stands for store.get_message; its failures
propagate exactly as in the source. -/
def check_body_match (getBody : MailEntry → Except String MailBody)
    (entry : MailEntry) (bodyTerms : List SearchTerm) (is_or : Bool) :
    Except String Bool :=
  match getBody entry with
  | .error e => .error e
  | .ok body =>
    let textLower := asciiLower (body.text.getD [])
    .ok (if is_or then bodyTerms.any (check_term_body textLower body.attachments)
         else bodyTerms.all (check_term_body textLower body.attachments))

/-- The candidate loop of search_fulltext: progress is polled before every
candidate and a false return stops the scan, keeping the matches gathered
so far; a message whose body cannot be fetched is skipped. -/
def fulltextGo (getBody : MailEntry → Except String MailBody)
    (entries : List MailEntry) (bodyTerms : List SearchTerm) (is_or : Bool)
    (progress : Nat → Nat → Bool) (total : Nat) :
    Nat → List Nat → List Nat
  | _, [] => []
  | i, idx :: rest =>
    if ! progress i total then []
    else
      let entry := entries.getD idx defaultMailEntry
      let m :=
        match check_body_match getBody entry bodyTerms is_or with
        | .ok b => b
        | .error _ => false
      if m then idx :: fulltextGo getBody entries bodyTerms is_or progress total (i + 1) rest
      else fulltextGo getBody entries bodyTerms is_or progress total (i + 1) rest

/-- search_fulltext.  The store-open step (whose failure makes the Rust
function return an error and hence no indices) is outside the model; the
final progress report has no effect on the result. -/
def search_fulltext (getBody : MailEntry → Except String MailBody)
    (entries : List MailEntry) (candidates : List Nat) (query : SearchQuery)
    (progress : Nat → Nat → Bool) : List Nat :=
  let bodyTerms := query.terms.filter isBodyOrFilename
  if bodyTerms = [] then candidates
  else fulltextGo getBody entries bodyTerms query.is_or progress candidates.length 0 candidates

/-! ## Conversation threading (src/tui/threading.rs)

The Rust code keeps the containers in a HashMap whose iteration order is
unspecified; the model keeps them in an association list in insertion
order, which realises one admissible iteration order.  Claims are settled
on inputs whose outcome does not depend on that order (single root, no date
ties). -/

structure Container where
  entry_index : Option Nat
  message_id : Str
  parent : Option Str
  children : List Str
deriving Repr, DecidableEq

abbrev CMap := List (Str × Container)

def getC (m : CMap) (k : Str) : Option Container :=
  (m.find? (fun p => p.1 == k)).map (·.2)

/-- HashMap::insert - replace the value if the key exists, append otherwise. -/
def upsertC : CMap → Str → Container → CMap
  | [], k, c => [(k, c)]
  | (k0, c0) :: rest, k, c =>
    if k0 == k then (k, c) :: rest else (k0, c0) :: upsertC rest k c

/-- HashMap::entry(...).or_insert_with(...). -/
def entryOr (m : CMap) (k : Str) (dflt : Container) : CMap :=
  if (getC m k).isSome then m else m ++ [(k, dflt)]

/-- Update the value at a key in place (get_mut followed by mutation). -/
def modifyC (m : CMap) (k : Str) (f : Container → Container) : CMap :=
  m.map (fun p => if p.1 == k then (p.1, f p.2) else p)

/-- str::trim_start_matches for a character pattern. -/
def trimStartMatches (c : Char) (s : Str) : Str := s.dropWhile (· == c)

/-- str::trim_end_matches for a character pattern. -/
def trimEndMatches (c : Char) (s : Str) : Str :=
  (s.reverse.dropWhile (· == c)).reverse

/-- normalize_id. -/
def normalize_id (id : Str) : Str :=
  rustTrim (trimEndMatches '>' (trimStartMatches '<' (rustTrim id)))

def reTok : Str := ['r','e',':']
def fwdTok : Str := ['f','w','d',':']
def fwTok : Str := ['f','w',':']

/-- The prefix-stripping loop of normalize_subject.  Fuelled: every
iteration shortens the string by at least three characters. -/
def normSubjGo : Nat → Str → Str
  | 0, s => s
  | fuel + 1, s =>
    let lower := asciiLower (rustTrim s)
    if reTok.isPrefixOf lower then normSubjGo fuel (rustTrimStart ((rustTrim s).drop 3))
    else if fwdTok.isPrefixOf lower then normSubjGo fuel (rustTrimStart ((rustTrim s).drop 4))
    else if fwTok.isPrefixOf lower then normSubjGo fuel (rustTrimStart ((rustTrim s).drop 3))
    else s

/-- normalize_subject. -/
def normalize_subject (subject : Str) : Str :=
  asciiLower (normSubjGo (subject.length + 1) (rustTrim subject))

/-- The walk of would_create_cycle.  The fuel is the remaining number of
hops the Rust depth counter still allows; when it reaches zero the walk
reports a cycle, exactly like the depth > 100 safety cap. -/
def cycleWalk (m : CMap) (childId : Str) : Nat → Str → Bool
  | fuel, id =>
    if id = childId then true
    else
      match fuel with
      | 0 => true
      | fuel + 1 =>
        match (getC m id).bind (fun c => c.parent) with
        | none => false
        | some p => cycleWalk m childId fuel p

/-- would_create_cycle: walk up from the candidate parent; the child being
an ancestor, or more than 100 hops, counts as a cycle. -/
def would_create_cycle (m : CMap) (parentId childId : Str) : Bool :=
  cycleWalk m childId 100 parentId

/-- The identifier chain of one entry before the message id is appended:
normalised non-empty references, then the normalised in_reply_to if it is
non-empty and does not already occur anywhere in that list. -/
def refsOf (entry : MailEntry) : List Str :=
  let refs := (entry.references.map normalize_id).filter (fun r => ! r.isEmpty)
  match entry.in_reply_to with
  | some irt =>
    let nid := normalize_id irt
    if (! nid.isEmpty) && (! refs.contains nid) then refs ++ [nid] else refs
  | none => refs

/-- The full chain refs ++ [message id] whose adjacent pairs are linked. -/
def chainOf (entry : MailEntry) : List Str :=
  refsOf entry ++ [normalize_id entry.message_id]

/-- Link one adjacent pair of the chain: skip self-links and links that
would create a cycle; otherwise detach the child from a different old
parent, set the parent, and record the child (once). -/
def linkPair (m : CMap) (parentId childId : Str) : CMap :=
  if parentId = childId then m
  else if would_create_cycle m parentId childId then m
  else
    let m1 :=
      match (getC m childId).bind (fun c => c.parent) with
      | some oldP =>
        if oldP ≠ parentId then
          modifyC m oldP
            (fun c => { c with children := c.children.filter (fun x => x ≠ childId) })
        else m
      | none => m
    let m2 := modifyC m1 childId (fun c => { c with parent := some parentId })
    modifyC m2 parentId (fun c =>
      if c.children.contains childId then c
      else { c with children := c.children ++ [childId] })

/-- Steps 1 and 2 of build_threads for a single entry. -/
def stepOne (m : CMap) (idx : Nat) (entry : MailEntry) : CMap :=
  let mid := normalize_id entry.message_id
  if mid.isEmpty then
    let synth := ['_','_','s','y','n','t','h','_'] ++ natToStr idx ++ ['_','_']
    upsertC m synth ⟨some idx, synth, none, []⟩
  else
    let m := entryOr m mid ⟨none, mid, none, []⟩
    let m := modifyC m mid (fun c => { c with entry_index := some idx })
    let refs := refsOf entry
    let m := refs.foldl (fun m rid => entryOr m rid ⟨none, rid, none, []⟩) m
    let chain := refs ++ [mid]
    (chain.zip chain.tail).foldl (fun m pc => linkPair m pc.1 pc.2) m

/-- Steps 1 and 2 of build_threads over all entries. -/
def buildContainers (entries : List MailEntry) : CMap :=
  entries.enum.foldl (fun m p => stepOne m p.1 p.2) []

/-- Step 3: containers without a parent. -/
def rootIdsOf (m : CMap) : List Str :=
  (m.filter (fun p => p.2.parent.isNone)).map (fun p => p.2.message_id)

/-- root_subject. -/
def root_subject (rootId : Str) (m : CMap) (entries : List MailEntry) : Str :=
  match getC m rootId with
  | some c =>
    match c.entry_index with
    | some idx => normalize_subject ((entries.getD idx defaultMailEntry).subject)
    | none =>
      match c.children.findSome? (fun cid => (getC m cid).bind (fun cc => cc.entry_index)) with
      | some idx => normalize_subject ((entries.getD idx defaultMailEntry).subject)
      | none => []
  | none => []

def upsertGroup : List (Str × List Str) → Str → Str → List (Str × List Str)
  | [], k, v => [(k, [v])]
  | (k0, vs) :: rest, k, v =>
    if k0 == k then (k0, vs ++ [v]) :: rest else (k0, vs) :: upsertGroup rest k v

/-- Step 5: group root ids by normalised subject. -/
def groupBySubject (rootIds : List Str) (m : CMap) (entries : List MailEntry) :
    List (Str × List Str) :=
  rootIds.foldl (fun acc rid => upsertGroup acc (root_subject rid m entries) rid) []

/-- Date of the entry held by a container, if any (the children sort key). -/
def childDate (m : CMap) (entries : List MailEntry) (cid : Str) : Option Int :=
  ((getC m cid).bind (fun c => c.entry_index)).map
    (fun i => (entries.getD i defaultMailEntry).date)

/-- Option ordering used by the children sort (None sorts first). -/
def optLe (a b : Option Int) : Bool :=
  match a, b with
  | none, _ => true
  | some _, none => false
  | some x, some y => x ≤ y

/-- flatten: emit the container's own record, then recurse into the
children sorted by date ascending; a recordless container passes its depth
through unchanged.  Fuelled: the container forest produced by the linker is
acyclic and at most m.length deep, so the fuel used below never runs out. -/
def flattenGo (m : CMap) (entries : List MailEntry) : Nat → Str → Nat → List (Nat × Nat)
  | 0, _, _ => []
  | fuel + 1, id, depth =>
    match getC m id with
    | none => []
    | some cont =>
      let self : List (Nat × Nat) :=
        match cont.entry_index with
        | some i => [(i, depth)]
        | none => []
      let sorted := List.insertionSort
        (fun a b => optLe (childDate m entries a) (childDate m entries b) = true)
        cont.children
      let childDepth := if cont.entry_index.isSome then depth + 1 else depth
      self ++ (sorted.map (fun cid => flattenGo m entries fuel cid childDepth)).flatten

/-- Pre-order flattening of a list of roots (depth 0 at each root). -/
def flattenAll (m : CMap) (entries : List MailEntry) (roots : List Str) :
    List (Nat × Nat) :=
  (roots.map (fun rid => flattenGo m entries (m.length + 1) rid 0)).flatten

structure Thread where
  root_message_id : Str
  subject : Str
  total_count : Nat
  date_range : Int × Int
  nodes : List (Nat × Nat)
deriving Repr, DecidableEq

/-- Stand-ins for chrono DateTime MAX_UTC and MIN_UTC, the initial values
of the running minimum and maximum; they never appear in a published
date_range because empty node lists are discarded. -/
def dateMaxUtc : Int := 9 * 10 ^ 21

def dateMinUtc : Int := -(9 * 10 ^ 21)

def nodeDate (entries : List MailEntry) (n : Nat × Nat) : Int :=
  (entries.getD n.1 defaultMailEntry).date

/-- Build one Thread from a subject group: flatten all its roots, drop the
group if nothing was emitted, and sort the node list by entry date
(sort_by on the date ordering; Rust's sort is stable and the comparator is
a total preorder, so insertion sort computes the same list). -/
def buildThreadOfGroup (m : CMap) (entries : List MailEntry)
    (g : Str × List Str) : Option Thread :=
  let raw := flattenAll m entries g.2
  if raw = [] then none
  else
    let nodes := List.insertionSort
      (fun a b => nodeDate entries a ≤ nodeDate entries b) raw
    some
      { root_message_id := g.2.headD [],
        subject := g.1,
        total_count := nodes.length,
        date_range :=
          (raw.foldl (fun a n => min a (nodeDate entries n)) dateMaxUtc,
           raw.foldl (fun a n => max a (nodeDate entries n)) dateMinUtc),
        nodes := nodes }

/-- build_threads. -/
def build_threads (entries : List MailEntry) : List Thread :=
  if entries = [] then []
  else
    let m := buildContainers entries
    let roots := rootIdsOf m
    let groups := groupBySubject roots m entries
    let threads := groups.filterMap (buildThreadOfGroup m entries)
    List.insertionSort (fun a b => b.date_range.2 ≤ a.date_range.2) threads

/-! ## Spec-side predicates (written from the specification text, for
comparison against the embedded code) -/

/-- Case-insensitive substring match, as the spec describes unquoted terms. -/
def ciContains (hay needle : Str) : Bool :=
  strContains (asciiLower hay) (asciiLower needle)

/-- Case-insensitive equality, as the spec describes quoted phrases. -/
def ciEquals (hay needle : Str) : Bool :=
  asciiLower hay = asciiLower needle

/-- The chain of claim C6 as literally stated: the in_reply_to identifier is
appended only when it is not already the tail of the references chain. -/
def chainClaimed (entry : MailEntry) : List Str :=
  let refs := (entry.references.map normalize_id).filter (fun r => ! r.isEmpty)
  let withIrt :=
    match entry.in_reply_to with
    | some irt =>
      let nid := normalize_id irt
      if nid ≠ [] ∧ refs.getLast? ≠ some nid then refs ++ [nid] else refs
    | none => refs
  withIrt ++ [normalize_id entry.message_id]

/-- The chain as amended: the in_reply_to identifier is appended only when
it does not occur anywhere in the references chain. -/
def chainAmendedSpec (entry : MailEntry) : List Str :=
  let refs := (entry.references.map normalize_id).filter (fun r => ! r.isEmpty)
  let withIrt :=
    match entry.in_reply_to with
    | some irt =>
      let nid := normalize_id irt
      if nid ≠ [] ∧ nid ∉ refs then refs ++ [nid] else refs
    | none => refs
  withIrt ++ [normalize_id entry.message_id]

/-! ## Concrete instances used by the claim theorems -/

/-- A 128-byte index header: valid magic and version, message_count 0,
archive size 6, mtime 0, all-zero content hash, zero padding. -/
def idxHeaderBytes : List Nat :=
  magicBytes ++ [1, 0, 0, 0] ++ [0, 0, 0, 0] ++ List.replicate 8 0 ++
  [6, 0, 0, 0, 0, 0, 0, 0] ++ List.replicate 8 0 ++ List.replicate 32 0 ++
  List.replicate 56 0

/-- An index file whose trailing record bytes are an empty bincode vector. -/
def idxFileOk : List Nat := idxHeaderBytes ++ List.replicate 8 0

/-- The 32-byte hash value stored in idxHeaderBytes. -/
def zeroHash : List Nat := List.replicate 32 0

/-- An mbox file used for the separator-claim counterexample: a separator
line, a blank line, then a line consisting of a UTF-8 BOM followed by the
separator token. -/
def fileBomCex : List Nat :=
  [70, 114, 111, 109, 32, 97, 10] ++ [10] ++ bomBytes ++ [70, 114, 111, 109, 32, 98, 10]

/-- A line consisting of a UTF-8 BOM followed by the separator token. -/
def bomFromLine : List Nat := bomBytes ++ [70, 114, 111, 109, 32, 120, 10]

/-- A one-message mbox file, b"From a\n". -/
def fileOneMsg : List Nat := [70, 114, 111, 109, 32, 97, 10]

/-- C8 counterexample input: a decodable encoded-word, one space, then a
token that starts like an encoded-word but fails to decode. -/
def cexC8 : Str := ("=?UTF-8?B?SGk=?= =?x").toList

/-- Two thread entries whose reply is older than its root: entry 0 is the
root (date 100h), entry 1 replies to it (date 50h). -/
def exC5 : List MailEntry :=
  [{ defaultMailEntry with
       offset := 0, length := 500, date := 360000000000000,
       subject := ['x'], message_id := ("<a@ex.com>").toList, sequence := 0 },
   { defaultMailEntry with
       offset := 1000, length := 500, date := 180000000000000,
       subject := ['x'], message_id := ("<b@ex.com>").toList,
       in_reply_to := some (("<a@ex.com>").toList),
       references := [("<a@ex.com>").toList], sequence := 1 }]

/-- C6 counterexample entry: references a then b, in_reply_to a (which is
in the chain but not its tail). -/
def exC6Entry : MailEntry :=
  { defaultMailEntry with
      message_id := ("<m@ex.com>").toList,
      in_reply_to := some (("<a@ex.com>").toList),
      references := [("<a@ex.com>").toList, ("<b@ex.com>").toList] }

/-- C9 counterexample pieces: a body whose plain text is hello world and a
quoted body term for the phrase hello. -/
def bodyTextC9 : Str := ("hello world").toList

def termC9 : SearchTerm := ⟨.body, .exact (("hello").toList), false⟩

def gbC9 : MailEntry → Except String MailBody :=
  fun _ => .ok ⟨some bodyTextC9, none, [], []⟩

/-- A two-container map with no links, used to exercise the linker. -/
def cmapC6 : CMap :=
  [(['a'], ⟨none, ['a'], none, []⟩), (['b'], ⟨none, ['b'], none, []⟩)]

/-! # Theorems -/

/-- Claim C1.  Staleness detection: if an index file loads successfully
against one live state of the archive, then after any change to the live
file size, modification time, or first-4096-byte hash the same index file
loads as "no index" (None); and whenever the stored message_count differs
from the number of deserialised records, the load also returns None. -/
theorem c1_staleness_detection :
    (∀ (data : List Nat) (s s2 : Nat) (m m2 : Int) (h h2 : List Nat)
        (es : List MailEntry),
        load_index_from_file data s m h = .ok (some es) →
        s2 ≠ s ∨ m2 ≠ m ∨ h2 ≠ h →
        load_index_from_file data s2 m2 h2 = .ok none) ∧
    (∀ (data : List Nat) (s : Nat) (m : Int) (h : List Nat)
        (hd : IndexHeader) (es : List MailEntry),
        deserHeader (data.take headerSize) = .ok hd →
        deserEntries (data.drop headerSize) = .ok es →
        es.length ≠ hd.message_count →
        load_index_from_file data s m h = .ok none) := by
  constructor
  · intro data s s2 m m2 h h2 es h1 hdiff
    unfold load_index_from_file at h1 ⊢
    by_cases hlen : data.length < headerSize
    · simp [hlen] at h1
    · simp only [hlen, if_false] at h1 ⊢
      cases hh : deserHeader (data.take headerSize) with
      | error e => rw [hh] at h1; exact absurd h1 (by simp)
      | ok hd =>
        rw [hh] at h1
        by_cases hv : validateHeader hd = true
        · by_cases hs : hd.mbox_file_size = s
          · by_cases hm : hd.mbox_modified_time = m
            · by_cases hsha : hd.sha256_first_4kb = h
              · rcases hdiff with hq | hq | hq
                · have hns : hd.mbox_file_size ≠ s2 := by
                    rw [hs]; exact fun e => hq e.symm
                  simp [hv, hns]
                · by_cases hs2 : hd.mbox_file_size = s2
                  · have hnm : hd.mbox_modified_time ≠ m2 := by
                      rw [hm]; exact fun e => hq e.symm
                    simp [hv, hs2, hnm]
                  · simp [hv, hs2]
                · by_cases hs2 : hd.mbox_file_size = s2
                  · by_cases hm2 : hd.mbox_modified_time = m2
                    · have hnh : hd.sha256_first_4kb ≠ h2 := by
                        rw [hsha]; exact fun e => hq e.symm
                      simp [hv, hs2, hm2, hnh]
                    · simp [hv, hs2, hm2]
                  · simp [hv, hs2]
              · simp [hv, hs, hm, hsha] at h1
            · simp [hv, hs, hm] at h1
          · simp [hv, hs] at h1
        · simp [hv] at h1
  · intro data s m h hd es hh he hneq
    unfold load_index_from_file
    by_cases hlen : data.length < headerSize
    · simp [hlen]
    · rw [if_neg hlen, hh]
      by_cases hv : validateHeader hd = true
      · by_cases hs : hd.mbox_file_size = s
        · by_cases hm : hd.mbox_modified_time = m
          · by_cases hsha : hd.sha256_first_4kb = h
            · simp [hv, hs, hm, hsha, he, hneq]
            · simp [hv, hs, hm, hsha]
          · simp [hv, hs, hm]
        · simp [hv, hs]
      · simp [hv]

/-- Witness for claim C1 at a concrete index file and live metadata. -/
theorem c1_staleness_witness :
    load_index_from_file idxFileOk 6 0 zeroHash = .ok (some []) ∧
    load_index_from_file idxFileOk 7 0 zeroHash = .ok none := by
  refine ⟨by rfl, ?_⟩
  exact c1_staleness_detection.1 idxFileOk 6 7 0 0 zeroHash zeroHash []
    (by rfl) (Or.inl (by decide))

/-- Claim C2 (code bug evidence).  An index file whose 128-byte header is
valid and matches the live archive but whose trailing record bytes are
corrupt (here: empty, as a partial write leaves them) makes the loader
raise an InvalidIndex error instead of returning "no index": the
deserialisation failure propagates through the question-mark operator,
contradicting the loader's own doc comment and the spec. -/
theorem c2_corrupt_index_raises :
    load_index_from_file idxHeaderBytes 6 0 zeroHash =
      .error "Entry deserialization failed" := by
  rfl

/-! ### Helper lemmas about the parser loops -/

theorem all_dropLast_of_all {α : Type} {p : α → Bool} {l : List α}
    (h : l.all p = true) : l.dropLast.all p = true := by
  refine List.all_eq_true.2 fun x hx => List.all_eq_true.1 h x ?_
  exact (List.dropLast_sublist l).subset hx

/-- Loop invariant for MboxParser::parse: starting from a state whose count
equals the number of deliveries so far, all of which the callback accepted,
the returned count is the number of accepted deliveries, and at most the
final delivery was refused. -/
theorem parseGo_count (cb : Nat → List Nat → Bool) :
    ∀ (lines : List (List Nat)) (st : ParseSt),
      st.count = st.delivered.length →
      st.delivered.all (fun p => cb p.1 p.2) = true →
      (parseGo cb lines st).1 =
        ((parseGo cb lines st).2.filter (fun p => cb p.1 p.2)).length ∧
      (parseGo cb lines st).2.dropLast.all (fun p => cb p.1 p.2) = true := by
  intro lines
  induction lines with
  | nil =>
    intro st hc ha
    by_cases hb : st.message_buf = []
    · simpa [parseGo, hb, hc, List.filter_eq_self.2 (List.all_eq_true.1 ha)] using
        all_dropLast_of_all ha
    · cases hcb : cb st.message_start st.message_buf with
      | false =>
        simp [parseGo, hb, hcb, hc, List.filter_append,
          List.filter_eq_self.2 (List.all_eq_true.1 ha), List.dropLast_concat, ha]
      | true =>
        simp [parseGo, hb, hcb, hc, List.filter_append,
          List.filter_eq_self.2 (List.all_eq_true.1 ha), List.dropLast_concat, ha]
  | cons line rest ih =>
    intro st hc ha
    by_cases hsep : is_mbox_separator line = true
    · by_cases hb : st.message_buf = []
      · simpa [parseGo, hsep, hb] using
          ih { st with current_offset := st.current_offset + line.length,
                       message_buf := line, message_start := st.current_offset } hc ha
      · cases hcb : cb st.message_start st.message_buf with
        | false =>
          simp [parseGo, hsep, hb, hcb, hc, List.filter_append,
            List.filter_eq_self.2 (List.all_eq_true.1 ha), List.dropLast_concat, ha]
        | true =>
          have hc2 : st.count + 1 =
              (st.delivered ++ [(st.message_start, st.message_buf)]).length := by
            simp [hc]
          have ha2 : (st.delivered ++ [(st.message_start, st.message_buf)]).all
              (fun p => cb p.1 p.2) = true := by
            simp [List.all_append, ha, hcb]
          simpa [parseGo, hsep, hb, hcb] using
            ih { count := st.count + 1,
                 delivered := st.delivered ++ [(st.message_start, st.message_buf)],
                 current_offset := st.current_offset + line.length,
                 message_buf := line, message_start := st.current_offset } hc2 ha2
    · simpa [parseGo, hsep] using
        ih { st with current_offset := st.current_offset + line.length,
                     message_buf :=
                       if st.message_buf.length + line.length ≤ maxMessageSize
                       then st.message_buf ++ line else st.message_buf } hc ha

/-- Loop invariant for MboxParser::parse_headers_only, as for parseGo_count. -/
theorem hdrGo_count (cb : Nat → Nat → List Nat → Bool) :
    ∀ (lines : List (List Nat)) (st : HdrSt),
      st.count = st.delivered.length →
      st.delivered.all (fun p => cb p.1 p.2.1 p.2.2) = true →
      (hdrGo cb lines st).1 =
        ((hdrGo cb lines st).2.filter (fun p => cb p.1 p.2.1 p.2.2)).length ∧
      (hdrGo cb lines st).2.dropLast.all (fun p => cb p.1 p.2.1 p.2.2) = true := by
  intro lines
  induction lines with
  | nil =>
    intro st hc ha
    cases hpm : st.prev_message_start with
    | none =>
      simpa [hdrGo, hpm, hc, List.filter_eq_self.2 (List.all_eq_true.1 ha)] using
        all_dropLast_of_all ha
    | some pstart =>
      cases hcb : cb pstart (st.current_offset - pstart) (st.prev_headers.getD st.header_buf) with
      | false =>
        simp [hdrGo, hpm, hcb, hc, List.filter_append,
          List.filter_eq_self.2 (List.all_eq_true.1 ha), List.dropLast_concat, ha]
      | true =>
        simp [hdrGo, hpm, hcb, hc, List.filter_append,
          List.filter_eq_self.2 (List.all_eq_true.1 ha), List.dropLast_concat, ha]
  | cons line rest ih =>
    intro st hc ha
    by_cases hsep : is_mbox_separator line = true
    · cases hpm : st.prev_message_start with
      | none =>
        cases hph : st.prev_headers with
        | none =>
          simpa [hdrGo, hsep, hpm, hph] using
            ih { st with current_offset := st.current_offset + line.length,
                         header_buf := line, in_headers := true,
                         prev_message_start := some st.current_offset,
                         prev_headers := none } hc ha
        | some ph =>
          simpa [hdrGo, hsep, hpm, hph] using
            ih { st with current_offset := st.current_offset + line.length,
                         header_buf := line, in_headers := true,
                         prev_message_start := some st.current_offset,
                         prev_headers := none } hc ha
      | some pstart =>
        cases hph : st.prev_headers with
        | none =>
          simpa [hdrGo, hsep, hpm, hph] using
            ih { st with current_offset := st.current_offset + line.length,
                         header_buf := line, in_headers := true,
                         prev_message_start := some st.current_offset,
                         prev_headers := none } hc ha
        | some ph =>
          cases hcb : cb pstart (st.current_offset - pstart) ph with
          | false =>
            simp [hdrGo, hsep, hpm, hph, hcb, hc, List.filter_append,
              List.filter_eq_self.2 (List.all_eq_true.1 ha), List.dropLast_concat, ha]
          | true =>
            have hc2 : st.count + 1 =
                (st.delivered ++ [(pstart, st.current_offset - pstart, ph)]).length := by
              simp [hc]
            have ha2 : (st.delivered ++ [(pstart, st.current_offset - pstart, ph)]).all
                (fun p => cb p.1 p.2.1 p.2.2) = true := by
              simp [List.all_append, ha, hcb]
            simpa [hdrGo, hsep, hpm, hph, hcb] using
              ih { count := st.count + 1,
                   delivered := st.delivered ++ [(pstart, st.current_offset - pstart, ph)],
                   current_offset := st.current_offset + line.length,
                   header_buf := line, in_headers := true,
                   prev_message_start := some st.current_offset,
                   prev_headers := none } hc2 ha2
    · by_cases hih : st.in_headers = true
      · by_cases hbl : is_blank_line line = true
        · simpa [hdrGo, hsep, hih, hbl] using
            ih { st with current_offset := st.current_offset + line.length,
                         in_headers := false, prev_headers := some st.header_buf,
                         header_buf := [] } hc ha
        · simpa [hdrGo, hsep, hih, hbl] using
            ih { st with current_offset := st.current_offset + line.length,
                         header_buf := st.header_buf ++ line } hc ha
      · simpa [hdrGo, hsep, hih] using
          ih { st with current_offset := st.current_offset + line.length } hc ha

/-- Claim C7, corrected.  Counterexample to the claim as stated: on a
one-message archive with a callback that immediately returns false, both
scans deliver one message to the callback but return 0, not 1 — the
returned count excludes the message whose delivery caused the false
return. -/
theorem c7_counterexample :
    (parseRun (fun _ _ => false) fileOneMsg).1 = 0 ∧
    (parseRun (fun _ _ => false) fileOneMsg).2.length = 1 ∧
    (hdrRun (fun _ _ _ => false) fileOneMsg).1 = 0 ∧
    (hdrRun (fun _ _ _ => false) fileOneMsg).2.length = 1 := by
  decide

/-- Claim C7 as amended: for both scan operations, a false-returning
callback stops the scan immediately (every delivery except possibly the
last was accepted), and the function returns the count of messages whose
delivery the callback accepted — that is, the count of messages already
delivered excluding the message whose delivery caused the false return. -/
theorem c7_early_termination_amended :
    ∀ (cb : Nat → List Nat → Bool) (cb2 : Nat → Nat → List Nat → Bool)
      (file : List Nat),
      (parseRun cb file).1 =
        ((parseRun cb file).2.filter (fun p => cb p.1 p.2)).length ∧
      (parseRun cb file).2.dropLast.all (fun p => cb p.1 p.2) = true ∧
      (hdrRun cb2 file).1 =
        ((hdrRun cb2 file).2.filter (fun p => cb2 p.1 p.2.1 p.2.2)).length ∧
      (hdrRun cb2 file).2.dropLast.all (fun p => cb2 p.1 p.2.1 p.2.2) = true := by
  intro cb cb2 file
  by_cases hf : file = []
  · simp [parseRun, hdrRun, hf]
  · have h1 := parseGo_count cb (splitLines file) parseInit (by rfl) (by rfl)
    have h2 := hdrGo_count cb2 (splitLines file) hdrInit (by rfl) (by rfl)
    simp only [parseRun, hdrRun, if_neg hf]
    exact ⟨h1.1, h1.2, h2.1, h2.2⟩

/-! ### Separator recognition and the record-start invariant -/

/-- The code's separator test agrees with: the line begins with the token
b"From ", possibly after a UTF-8 BOM. -/
theorem is_mbox_separator_eq (line : List Nat) :
    is_mbox_separator line = startsWithSepToken line := by
  unfold is_mbox_separator startsWithSepToken
  by_cases hb : bomBytes.isPrefixOf line = true
  · obtain ⟨tail, htail⟩ := List.isPrefixOf_iff_prefix.1 hb
    subst htail
    have h3 : (bomBytes ++ tail).drop 3 = tail := rfl
    have h5 : fromToken.isPrefixOf (bomBytes ++ tail) = false := rfl
    have h4 : (bomBytes ++ fromToken).isPrefixOf (bomBytes ++ tail) =
        fromToken.isPrefixOf tail := by
      cases hf : fromToken.isPrefixOf tail with
      | true =>
        exact List.isPrefixOf_iff_prefix.2
          ((List.prefix_append_right_inj bomBytes).2 (List.isPrefixOf_iff_prefix.1 hf))
      | false =>
        cases hx : (bomBytes ++ fromToken).isPrefixOf (bomBytes ++ tail) with
        | false => rfl
        | true =>
          exact absurd
            (List.isPrefixOf_iff_prefix.2
              ((List.prefix_append_right_inj bomBytes).1 (List.isPrefixOf_iff_prefix.1 hx)))
            (by simp [hf])
    simp [hb, h3, h4, h5]
  · have h5 : (bomBytes ++ fromToken).isPrefixOf line = false := by
      cases hx : (bomBytes ++ fromToken).isPrefixOf line with
      | false => rfl
      | true =>
        exact absurd
          (List.isPrefixOf_iff_prefix.2
            ((List.prefix_append bomBytes fromToken).trans (List.isPrefixOf_iff_prefix.1 hx)))
          (by simpa using hb)
    simp [hb, h5]

theorem startsWithSepToken_ne_nil {l : List Nat} (h : startsWithSepToken l = true) :
    l ≠ [] := by
  intro hl
  subst hl
  exact absurd h (by decide)

theorem startsWithSepToken_append (l m : List Nat)
    (h : startsWithSepToken l = true) : startsWithSepToken (l ++ m) = true := by
  unfold startsWithSepToken at h ⊢
  rcases Bool.or_eq_true_iff.1 h with h1 | h1
  · exact Bool.or_eq_true_iff.2 (Or.inl (List.isPrefixOf_iff_prefix.2
      ((List.isPrefixOf_iff_prefix.1 h1).trans (List.prefix_append l m))))
  · exact Bool.or_eq_true_iff.2 (Or.inr (List.isPrefixOf_iff_prefix.2
      ((List.isPrefixOf_iff_prefix.1 h1).trans (List.prefix_append l m))))

/-- Loop invariant for MboxParser::parse: if the accumulating buffer and
every past delivery begin with the separator token, so does every delivery
of the rest of the scan. -/
theorem parseGo_records (cb : Nat → List Nat → Bool) :
    ∀ (lines : List (List Nat)) (st : ParseSt),
      startsWithSepToken st.message_buf = true →
      (∀ p ∈ st.delivered, startsWithSepToken p.2 = true) →
      ∀ p ∈ (parseGo cb lines st).2, startsWithSepToken p.2 = true := by
  intro lines
  induction lines with
  | nil =>
    intro st hbuf hdel p hp
    have hb : ¬ st.message_buf = [] := startsWithSepToken_ne_nil hbuf
    cases hcb : cb st.message_start st.message_buf with
    | true =>
      simp only [parseGo, hb, hcb, ne_eq, not_false_eq_true, if_true, if_pos] at hp
      rcases List.mem_append.1 hp with h | h
      · exact hdel p h
      · simpa [List.mem_singleton.1 h] using hbuf
    | false =>
      simp only [parseGo, hb, hcb, ne_eq, not_false_eq_true, if_true, if_false] at hp
      rcases List.mem_append.1 hp with h | h
      · exact hdel p h
      · simpa [List.mem_singleton.1 h] using hbuf
  | cons line rest ih =>
    intro st hbuf hdel p hp
    have hb : ¬ st.message_buf = [] := startsWithSepToken_ne_nil hbuf
    by_cases hsep : is_mbox_separator line = true
    · have hline : startsWithSepToken line = true := by
        rw [← is_mbox_separator_eq]; exact hsep
      cases hcb : cb st.message_start st.message_buf with
      | true =>
        refine ih { count := st.count + 1,
                    delivered := st.delivered ++ [(st.message_start, st.message_buf)],
                    current_offset := st.current_offset + line.length,
                    message_buf := line, message_start := st.current_offset }
          hline ?_ p ?_
        · intro q hq
          rcases List.mem_append.1 hq with h | h
          · exact hdel q h
          · simpa [List.mem_singleton.1 h] using hbuf
        · simpa [parseGo, hsep, hb, hcb] using hp
      | false =>
        simp only [parseGo, hsep, hb, hcb, ne_eq, not_false_eq_true, if_true,
          if_false, if_pos] at hp
        rcases List.mem_append.1 hp with h | h
        · exact hdel p h
        · simpa [List.mem_singleton.1 h] using hbuf
    · refine ih { st with current_offset := st.current_offset + line.length,
                          message_buf :=
                            if st.message_buf.length + line.length ≤ maxMessageSize
                            then st.message_buf ++ line else st.message_buf }
        ?_ hdel p ?_
      · by_cases hfit : st.message_buf.length + line.length ≤ maxMessageSize
        · simpa [hfit] using startsWithSepToken_append st.message_buf line hbuf
        · simpa [hfit] using hbuf
      · simpa [parseGo, hsep] using hp

/-- First step of the scan when the first line is a separator and the
buffer is still empty. -/
theorem parseGo_first_sep (cb : Nat → List Nat → Bool) (line : List Nat)
    (rest : List (List Nat)) (st : ParseSt)
    (hsep : is_mbox_separator line = true) (hb : st.message_buf = []) :
    parseGo cb (line :: rest) st =
      parseGo cb rest
        { st with current_offset := st.current_offset + line.length,
                  message_buf := line, message_start := st.current_offset } := by
  simp [parseGo, hsep, hb]

/-- Claim C4, counterexample to the claim as stated.  A line consisting of
a UTF-8 BOM followed by From is accepted as a message boundary although it
does not begin with the five bytes From ; consequently, on an archive whose
third line carries a mid-file BOM, the scan starts record 1 at that line
and record 1 does not begin with From (the BOM precedes it on a record
other than record 0). -/
theorem c4_counterexample :
    is_mbox_separator bomFromLine = true ∧
    fromToken.isPrefixOf bomFromLine = false ∧
    (parseRun (fun _ _ => true) fileBomCex).2.map Prod.fst = [0, 8] ∧
    (parseRun (fun _ _ => true) fileBomCex).2.map
      (fun p => fromToken.isPrefixOf p.2) = [true, false] := by
  decide

/-- Claim C4 as amended: a line is a message boundary iff, after stripping
an optional UTF-8 BOM prefix, it begins with the five bytes From (so a
line beginning with greater-than From is never a boundary); and for every
record produced by a scan of a file whose first line is a boundary line,
the record's bytes begin with From , possibly preceded by a UTF-8 BOM —
for any record, not only record 0. -/
theorem c4_separator_amended :
    (∀ line, is_mbox_separator line = startsWithSepToken line) ∧
    (∀ rest, is_mbox_separator (62 :: (fromToken ++ rest)) = false) ∧
    (∀ (file : List Nat) (cb : Nat → List Nat → Bool) (l0 : List Nat)
       (ls : List (List Nat)),
       splitLines file = l0 :: ls → is_mbox_separator l0 = true →
       ∀ p ∈ (parseRun cb file).2, startsWithSepToken p.2 = true) := by
  refine ⟨is_mbox_separator_eq, fun rest => rfl, ?_⟩
  intro file cb l0 ls hsplit hsep p hp
  unfold parseRun at hp
  by_cases hf : file = []
  · simp [hf] at hp
  · rw [if_neg hf, hsplit, parseGo_first_sep cb l0 ls parseInit hsep rfl] at hp
    refine parseGo_records cb ls _ ?_ (by intro q hq; cases hq) p hp
    rw [← is_mbox_separator_eq]
    exact hsep

/-- Witness for the amended claim C4 on a one-message archive. -/
theorem c4_separator_amended_witness : startsWithSepToken fileOneMsg = true :=
  c4_separator_amended.2.2 fileOneMsg (fun _ _ => true) fileOneMsg []
    (by rfl) (by rfl) (0, fileOneMsg) (by decide)

/-! ### Query parsing: the has: token family -/

/-- Claim C10.  parse_query maps the negated attachment tokens to the
flipped tri-valued filter, and a has: token with any other value changes
nothing in the accumulated query (in particular it leaves has_attachment
unset and contributes no text term). -/
theorem c10_has_attachment_tokens :
    (parse_query (("-has:attachment").toList)).has_attachment = some false ∧
    (parse_query (("-has:attachment").toList)).terms = [] ∧
    (parse_query (("-has:no-attachment").toList)).has_attachment = some true ∧
    (parse_query (("-has:no-attachment").toList)).terms = [] ∧
    (∀ (acc : SearchQuery) (v : Str),
       v ≠ ("attachment").toList → v ≠ ("attachments").toList →
       v ≠ ("no-attachment").toList → v ≠ ("no-attachments").toList →
       applyToken acc (kwHas ++ v) = acc) := by
  refine ⟨by decide, by decide, by decide, by decide, ?_⟩
  intro acc v h1 h2 h3 h4
  have h1b : v ≠ ['a','t','t','a','c','h','m','e','n','t'] := h1
  have h2b : v ≠ ['a','t','t','a','c','h','m','e','n','t','s'] := h2
  have h3b : v ≠ ['n','o','-','a','t','t','a','c','h','m','e','n','t'] := h3
  have h4b : v ≠ ['n','o','-','a','t','t','a','c','h','m','e','n','t','s'] := h4
  simp only [applyToken, kwHas, kwFrom, kwTo, kwCc, kwSubject, kwBody, kwLabel,
    kwFilename, kwId, kwDate, kwBefore, kwAfter, kwSize, stripPref,
    List.cons_append, List.nil_append, List.isPrefixOf]
  simp [h1b, h2b, h3b, h4b]

/-- Witness for claim C10 at a concrete accumulator and token value. -/
theorem c10_has_attachment_witness :
    applyToken (emptyQuery false) (kwHas ++ ("xyz").toList) = emptyQuery false :=
  c10_has_attachment_tokens.2.2.2.2 (emptyQuery false) (("xyz").toList)
    (by decide) (by decide) (by decide) (by decide)

/-! ### The two search phases -/

theorem search_metadata_pairwise (entries : List MailEntry) (q : SearchQuery) :
    List.Pairwise (· < ·) (search_metadata entries q) := by
  have h1 : (entries.enum.filter (fun p => entry_matches p.2 q)).Sublist entries.enum :=
    List.filter_sublist _
  have h2 := h1.map Prod.fst
  rw [List.enum_map_fst] at h2
  have h3 := List.Pairwise.sublist h2 (List.pairwise_lt_range entries.length)
  simpa [search_metadata] using h3

theorem fulltextGo_sublist (gb : MailEntry → Except String MailBody)
    (entries : List MailEntry) (ts : List SearchTerm) (o : Bool)
    (pr : Nat → Nat → Bool) (tot : Nat) :
    ∀ (cs : List Nat) (i : Nat), (fulltextGo gb entries ts o pr tot i cs).Sublist cs := by
  intro cs
  induction cs with
  | nil => intro i; simp [fulltextGo]
  | cons idx rest ih =>
    intro i
    cases hpr : pr i tot with
    | false => simp [fulltextGo, hpr]
    | true =>
      simp only [fulltextGo, hpr, Bool.not_true, Bool.false_eq_true, if_false, ite_false]
      split
      · exact List.Sublist.cons₂ idx (ih (i + 1))
      · exact List.Sublist.cons idx (ih (i + 1))

theorem search_fulltext_sublist (gb : MailEntry → Except String MailBody)
    (entries : List MailEntry) (cs : List Nat) (q : SearchQuery)
    (pr : Nat → Nat → Bool) : (search_fulltext gb entries cs q pr).Sublist cs := by
  unfold search_fulltext
  by_cases hbt : q.terms.filter isBodyOrFilename = []
  · simp [hbt]
  · simpa [hbt] using fulltextGo_sublist gb entries _ q.is_or pr cs.length cs 0

/-- Claim C3.  The combined query (metadata filter, then the full-text
phase over its survivors) returns a subset of the metadata-only result,
and both phases return record indices in strictly ascending order. -/
theorem c3_phase_subset_ascending :
    ∀ (entries : List MailEntry) (q : SearchQuery)
      (gb : MailEntry → Except String MailBody) (pr : Nat → Nat → Bool),
      (∀ i ∈ search_fulltext gb entries (search_metadata entries q) q pr,
         i ∈ search_metadata entries q) ∧
      List.Pairwise (· < ·) (search_metadata entries q) ∧
      List.Pairwise (· < ·)
        (search_fulltext gb entries (search_metadata entries q) q pr) := by
  intro entries q gb pr
  have hsub := search_fulltext_sublist gb entries (search_metadata entries q) q pr
  have hpw := search_metadata_pairwise entries q
  exact ⟨fun i hi => hsub.subset hi, hpw, List.Pairwise.sublist hsub hpw⟩

/-- Witness for claim C3 on a one-entry index and the empty query. -/
theorem c3_phase_subset_witness :
    (0 : Nat) ∈ search_metadata [defaultMailEntry] (parse_query []) :=
  (c3_phase_subset_ascending [defaultMailEntry] (parse_query [])
    (fun _ => .error "") (fun _ _ => true)).1 0 (by decide)

/-! ### Text matching semantics -/

theorem make_operator_quoted (inner : Str) :
    make_operator ('"' :: (inner ++ ['"'])) = .exact (asciiLower inner) := by
  have hpre : (['"'] : Str).isPrefixOf ('"' :: (inner ++ ['"'])) = true := by
    simp [List.isPrefixOf]
  have hsufFull : (['"'] : Str).isSuffixOf ('"' :: (inner ++ ['"'])) = true := by
    apply List.isSuffixOf_iff_suffix.2
    exact ⟨'"' :: inner, rfl⟩
  have hsufInner : (['"'] : Str).isSuffixOf (inner ++ ['"']) = true := by
    apply List.isSuffixOf_iff_suffix.2
    exact ⟨inner, rfl⟩
  have htake : (inner ++ ['"']).take ((inner ++ ['"']).length - 1) = inner := by
    have : (inner ++ ['"']).length - 1 = inner.length := by simp
    rw [this, List.take_left]
  simp [make_operator, stripPref, stripSuff, hpre, hsufFull, hsufInner, htake]

theorem make_operator_unquoted (v : Str)
    (h : ¬ ((['"'] : Str).isPrefixOf v = true ∧ (['"'] : Str).isSuffixOf v = true)) :
    make_operator v = .contains (asciiLower v) := by
  cases hp : (['"'] : Str).isPrefixOf v with
  | false =>
    have hnone : stripPref ['"'] v = none := by simp [stripPref, hp]
    simp [make_operator, hnone, hp]
  | true =>
    obtain ⟨xs, hxs⟩ := List.isPrefixOf_iff_prefix.1 hp
    subst hxs
    have hs : (['"'] : Str).isSuffixOf ('"' :: xs) = false := by
      cases hq : (['"'] : Str).isSuffixOf ('"' :: xs) with
      | false => rfl
      | true => exact absurd (And.intro hp hq) (by simpa using h)
    have hs2 : (['"'] : Str).isSuffixOf xs = false := by
      cases hq : (['"'] : Str).isSuffixOf xs with
      | false => rfl
      | true =>
        obtain ⟨t, ht⟩ := List.isSuffixOf_iff_suffix.1 hq
        have hfull : (['"'] : Str).isSuffixOf ('"' :: xs) = true :=
          List.isSuffixOf_iff_suffix.2 ⟨'"' :: t, by rw [← ht]; rfl⟩
        rw [hfull] at hs
        cases hs
    have hs2q : ¬ ((['"'] : Str) <:+ xs) := fun hx => by
      rw [List.isSuffixOf_iff_suffix.2 hx] at hs2
      cases hs2
    simp [make_operator, stripPref, stripSuff, hp, hs, hs2, hs2q]

/-- Claim C9, counterexample to the claim as stated.  A quoted body phrase
is evaluated with substring containment, not equality: the body term
produced by parsing the quoted phrase hello matches a message whose plain
text is hello world, although the two are not equal (case-insensitively or
otherwise). -/
theorem c9_counterexample :
    (parse_query (("body:\"hello\"").toList)).terms = [termC9] ∧
    check_body_match gbC9 defaultMailEntry [termC9] false = .ok true ∧
    ciEquals bodyTextC9 (("hello").toList) = false := by
  refine ⟨by decide, by rfl, by decide⟩

/-- Claim C9 as amended: matching is case-insensitive everywhere (needles
are lowercased at parse time, haystacks at match time); unquoted terms
match by substring and quoted phrases by equality in the metadata fields
and in attachment filenames; but a quoted phrase scoped to body matches by
substring containment in the plain text, exactly like an unquoted term. -/
theorem c9_matching_amended :
    (∀ h v, ¬ ((['"'] : Str).isPrefixOf v = true ∧ (['"'] : Str).isSuffixOf v = true) →
       matches_text h (make_operator v) = ciContains h v) ∧
    (∀ h inner, matches_text h (make_operator ('"' :: (inner ++ ['"']))) = ciEquals h inner) ∧
    (∀ t atts v, ¬ ((['"'] : Str).isPrefixOf v = true ∧ (['"'] : Str).isSuffixOf v = true) →
       check_term_body t atts ⟨.body, make_operator v, false⟩ =
         strContains t (asciiLower v)) ∧
    (∀ t atts inner,
       check_term_body t atts ⟨.body, make_operator ('"' :: (inner ++ ['"'])), false⟩ =
         strContains t (asciiLower inner)) ∧
    (∀ t atts v, ¬ ((['"'] : Str).isPrefixOf v = true ∧ (['"'] : Str).isSuffixOf v = true) →
       check_term_body t atts ⟨.filename, make_operator v, false⟩ =
         atts.any (fun a => strContains (asciiLower a.filename) (asciiLower v))) ∧
    (∀ t atts inner,
       check_term_body t atts ⟨.filename, make_operator ('"' :: (inner ++ ['"'])), false⟩ =
         atts.any (fun a => ciEquals a.filename inner)) := by
  refine ⟨?_, ?_, ?_, ?_, ?_, ?_⟩
  · intro h v hq
    rw [make_operator_unquoted v hq]
    rfl
  · intro h inner
    rw [make_operator_quoted inner]
    rfl
  · intro t atts v hq
    rw [make_operator_unquoted v hq]
    rfl
  · intro t atts inner
    rw [make_operator_quoted inner]
    rfl
  · intro t atts v hq
    rw [make_operator_unquoted v hq]
    rfl
  · intro t atts inner
    rw [make_operator_quoted inner]
    rfl

/-- Witness for the amended claim C9 at concrete strings. -/
theorem c9_matching_amended_witness :
    matches_text (("ABC").toList) (make_operator (("b").toList)) =
      ciContains (("ABC").toList) (("b").toList) :=
  c9_matching_amended.1 (("ABC").toList) (("b").toList) (by decide)

/-! ### RFC 2047 decoding -/

theorem findEqQ_cons_marker (r : Str) : findEqQ ('=' :: '?' :: r) = some 0 := by
  simp [findEqQ]

theorem findEqQ_append_marker (gap r : Str) (hg : '=' ∉ gap) :
    findEqQ (gap ++ '=' :: '?' :: r) = some gap.length := by
  induction gap with
  | nil => simp [findEqQ]
  | cons c cs ih =>
    have hc : ¬(c = '=') := by
      intro hcc
      subst hcc
      exact hg (List.mem_cons_self _ _)
    have hg2 : '=' ∉ cs := fun hm => hg (List.mem_cons_of_mem c hm)
    simp [findEqQ, hc, ih hg2]

theorem findEqQ_bound : ∀ {l : Str} {i : Nat}, findEqQ l = some i → i + 2 ≤ l.length := by
  intro l
  induction l with
  | nil => intro i h; simp [findEqQ] at h
  | cons c rest ih =>
    intro i h
    by_cases hcond : c = '=' ∧ rest.head? = some '?'
    · rw [findEqQ, if_pos hcond] at h
      cases h
      cases rest with
      | nil => simp at hcond
      | cons x xs => simp
    · rw [findEqQ, if_neg hcond] at h
      rcases Option.map_eq_some'.1 h with ⟨j, hj, rfl⟩
      have := ih hj
      simp only [List.length_cons]
      omega

/-- decodeLoop is fuel-insensitive once the fuel exceeds half the input
length (every iteration consumes at least the two marker characters). -/
theorem decodeLoop_mono :
    ∀ (f1 f2 : Nat) (r : Str) (b : Bool),
      r.length < 2 * f1 → r.length < 2 * f2 →
      decodeLoop f1 r b = decodeLoop f2 r b := by
  intro f1
  induction f1 with
  | zero => intro f2 r b h1 _; exact absurd h1 (by omega)
  | succ f1 ih =>
    intro f2 r b h1 h2
    cases f2 with
    | zero => exact absurd h2 (by omega)
    | succ f2 =>
      simp only [decodeLoop]
      split
      · rfl
      · next start heq =>
        have hb := findEqQ_bound heq
        split
        · next text consumed heq2 =>
          rw [ih f2 _ true (by simp only [List.length_drop]; omega)
            (by simp only [List.length_drop]; omega)]
        · next heq2 =>
          rw [ih f2 _ false (by simp only [List.length_drop]; omega)
            (by simp only [List.length_drop]; omega)]

/-- One scanning step at a marker: the word after =? is decoded if
possible; otherwise the two marker characters survive literally and the
scan resumes after them with the flag cleared. -/
theorem decodeLoop_step (fuel : Nat) (r : Str) (b : Bool) :
    decodeLoop (fuel + 1) ('=' :: '?' :: r) b =
      (match try_decode_one_word r with
       | some tc => tc.1 ++ decodeLoop fuel (r.drop tc.2) true
       | none => '=' :: '?' :: decodeLoop fuel r false) := by
  simp only [decodeLoop, findEqQ_cons_marker]
  cases htry : try_decode_one_word r with
  | some tc => cases b <;> simp [htry, rustTrim]
  | none => cases b <;> simp [htry, rustTrim]

/-- One scanning step when literal text without an = sign precedes the
marker and the flag is clear: the literal text survives in front of the
step's output. -/
theorem decodeLoop_step_pre (fuel : Nat) (pre r : Str) (hpre : '=' ∉ pre) :
    decodeLoop (fuel + 1) (pre ++ '=' :: '?' :: r) false =
      pre ++ (match try_decode_one_word r with
       | some tc => tc.1 ++ decodeLoop fuel (r.drop tc.2) true
       | none => '=' :: '?' :: decodeLoop fuel r false) := by
  have hf := findEqQ_append_marker pre r hpre
  have htake : (pre ++ '=' :: '?' :: r).take pre.length = pre := List.take_left pre _
  have hdrop : (pre ++ '=' :: '?' :: r).drop (pre.length + 2) = r := by
    rw [← List.drop_drop, List.drop_left]
    rfl
  simp only [decodeLoop, hf, htake, hdrop]
  cases htry : try_decode_one_word r with
  | some tc => simp [htry, List.append_assoc]
  | none => simp [htry]

/-- Whitespace preceding a marker directly after a decoded encoded-word is
dropped before the following token is even examined. -/
theorem decodeLoop_ws_skip (fuel : Nat) (gap r : Str)
    (hg : ∀ c ∈ gap, rustIsWhitespace c = true) :
    decodeLoop (fuel + 1) (gap ++ '=' :: '?' :: r) true =
      decodeLoop (fuel + 1) ('=' :: '?' :: r) true := by
  have hne : '=' ∉ gap := fun hm => absurd (hg '=' hm) (by decide)
  have htake : (gap ++ '=' :: '?' :: r).take gap.length = gap := List.take_left gap _
  have hdrop : (gap ++ '=' :: '?' :: r).drop (gap.length + 2) = r := by
    rw [← List.drop_drop, List.drop_left]
    rfl
  have htrim : rustTrim gap = [] := by
    have h1 : gap.dropWhile rustIsWhitespace = [] := by
      rw [List.dropWhile_eq_nil_iff]
      intro x hx
      exact hg x hx
    simp [rustTrim, h1]
  simp only [decodeLoop, findEqQ_append_marker gap r hne, findEqQ_cons_marker,
    htake, hdrop, htrim]
  simp

/-- Claim C8, counterexample to the claim as stated.  In the input below
the token following the space fails to decode, yet the literal substring
consisting of that whitespace and the failed token does not survive: the
space is elided because it follows a successfully decoded encoded-word. -/
theorem c8_counterexample :
    strContains cexC8 ((" =?x").toList) = true ∧
    decode_encoded_words cexC8 = ("Hi=?x").toList ∧
    strContains (decode_encoded_words cexC8) ((" =?x").toList) = false := by
  refine ⟨by decide, by decide, by decide⟩

/-- Claim C8 as amended: whitespace that follows a decoded encoded-word and
precedes the next =? marker is elided whether or not that next token
decodes; a failed token survives literally from its =? marker onward, and
literal text that does not follow a decoded encoded-word survives
unchanged; between two adjacent decodable encoded-words this elides exactly
the intervening whitespace. -/
theorem c8_decoding_amended :
    (∀ gap r, (∀ c ∈ gap, rustIsWhitespace c = true) →
       decodeFrom (gap ++ '=' :: '?' :: r) true = decodeFrom ('=' :: '?' :: r) true) ∧
    (∀ r b, try_decode_one_word r = none →
       decodeFrom ('=' :: '?' :: r) b = '=' :: '?' :: decodeFrom r false) ∧
    (∀ pre r, '=' ∉ pre →
       decodeFrom (pre ++ '=' :: '?' :: r) false =
         pre ++ decodeFrom ('=' :: '?' :: r) false) ∧
    (∀ r t c b, try_decode_one_word r = some (t, c) →
       decodeFrom ('=' :: '?' :: r) b = t ++ decodeFrom (r.drop c) true) ∧
    (∀ s, decode_encoded_words s = decodeFrom s false) := by
  have hlenR : ∀ r : Str, ('=' :: '?' :: r).length = r.length + 2 := by
    intro r
    simp only [List.length_cons]
  refine ⟨?_, ?_, ?_, ?_, fun s => rfl⟩
  · intro gap r hg
    have hlenL : (gap ++ '=' :: '?' :: r).length = gap.length + 2 + r.length := by
      simp only [List.length_append, List.length_cons]
      omega
    unfold decodeFrom
    rw [hlenL, hlenR r, decodeLoop_ws_skip (gap.length + 2 + r.length) gap r hg]
    exact decodeLoop_mono (gap.length + 2 + r.length + 1) (r.length + 2 + 1)
      ('=' :: '?' :: r) true
      (by rw [hlenR r]; omega) (by rw [hlenR r]; omega)
  · intro r b htry
    unfold decodeFrom
    rw [hlenR r, decodeLoop_step (r.length + 2) r b, htry]
    have hmono := decodeLoop_mono (r.length + 2) (r.length + 1) r false
      (by omega) (by omega)
    simp [hmono]
  · intro pre r hpre
    have hlenL : (pre ++ '=' :: '?' :: r).length = pre.length + 2 + r.length := by
      simp only [List.length_append, List.length_cons]
      omega
    unfold decodeFrom
    rw [hlenL, hlenR r, decodeLoop_step (r.length + 2) r false,
      decodeLoop_step_pre (pre.length + 2 + r.length) pre r hpre]
    cases htry : try_decode_one_word r with
    | some tc =>
      have hmono := decodeLoop_mono (pre.length + 2 + r.length) (r.length + 2)
        (r.drop tc.2) true (by simp only [List.length_drop]; omega)
        (by simp only [List.length_drop]; omega)
      simp [htry, hmono]
    | none =>
      have hmono := decodeLoop_mono (pre.length + 2 + r.length) (r.length + 2) r false
        (by omega) (by omega)
      simp [htry, hmono]
  · intro r t c b htry
    unfold decodeFrom
    rw [hlenR r, decodeLoop_step (r.length + 2) r b, htry]
    have hmono := decodeLoop_mono (r.length + 2) ((r.drop c).length + 1) (r.drop c) true
      (by simp only [List.length_drop]; omega) (by omega)
    simp [hmono]

/-- Witness for the amended claim C8: the space between an encoded word and
the following marker is elided at a concrete input. -/
theorem c8_decoding_amended_witness :
    decodeFrom ([' '] ++ '=' :: '?' :: ['x']) true = decodeFrom ('=' :: '?' :: ['x']) true :=
  c8_decoding_amended.1 [' '] ['x'] (by decide)

/-! ### Threader chain wiring -/

theorem getC_cons (k0 : Str) (c0 : Container) (rest : CMap) (k : Str) :
    getC ((k0, c0) :: rest) k = if (k0 == k) = true then some c0 else getC rest k := by
  by_cases h : (k0 == k) = true
  · simp [getC, List.find?_cons, h]
  · simp [getC, List.find?_cons, h]

theorem modifyC_cons (k0 : Str) (c0 : Container) (rest : CMap) (k : Str)
    (f : Container → Container) :
    modifyC ((k0, c0) :: rest) k f =
      (if (k0 == k) = true then (k0, f c0) else (k0, c0)) :: modifyC rest k f := by
  by_cases h : (k0 == k) = true
  · simp [modifyC, beq_iff_eq.1 h]
  · have h2 : ¬ k0 = k := fun hx => h (beq_iff_eq.2 hx)
    simp [modifyC, h, h2]

theorem getC_modifyC_self :
    ∀ (m : CMap) (k : Str) (f : Container → Container),
      getC (modifyC m k f) k = (getC m k).map f := by
  intro m k f
  induction m with
  | nil => rfl
  | cons p rest ih =>
    obtain ⟨k0, c0⟩ := p
    by_cases h0 : (k0 == k) = true <;>
      simp [modifyC_cons, getC_cons, h0, ih]

theorem getC_modifyC_other :
    ∀ (m : CMap) (k k2 : Str) (f : Container → Container), k2 ≠ k →
      getC (modifyC m k f) k2 = getC m k2 := by
  intro m k k2 f hne
  induction m with
  | nil => rfl
  | cons p rest ih =>
    obtain ⟨k0, c0⟩ := p
    by_cases h0 : (k0 == k) = true
    · have h2 : ¬ (k0 == k2) = true := by
        intro hx
        exact hne ((beq_iff_eq.1 hx).symm.trans (beq_iff_eq.1 h0))
      simp [modifyC_cons, getC_cons, h0, h2, ih]
    · by_cases h2 : (k0 == k2) = true
      · simp [modifyC_cons, getC_cons, h0, h2]
      · simp [modifyC_cons, getC_cons, h0, h2, ih]

theorem getC_modifyC_isSome (m : CMap) (k k2 : Str) (f : Container → Container) :
    (getC (modifyC m k f) k2).isSome = (getC m k2).isSome := by
  by_cases h : k2 = k
  · subst h
    rw [getC_modifyC_self]
    cases getC m k2 <;> rfl
  · rw [getC_modifyC_other m k k2 f h]

/-- Claim C6, counterexample to the claim as stated.  For an entry whose
references are a then b and whose in_reply_to is a, the code's chain omits
the in_reply_to (it occurs somewhere in the references, though not at the
tail), so the chain disagrees with the claimed one, and the entry's own
container ends up parented to b where the claimed chain would reparent it
to a. -/
theorem c6_counterexample :
    chainOf exC6Entry ≠ chainClaimed exC6Entry ∧
    (getC (buildContainers [exC6Entry]) (normalize_id exC6Entry.message_id)).map
      Container.parent = some (some (("b@ex.com").toList)) := by
  refine ⟨by decide, by decide⟩

/-- Claim C6 as amended: the chain is references[0] ... references[last],
then in_reply_to appended only when it does not already occur anywhere in
the references chain, then message_id; each adjacent pair is linked only if
the link would not create a cycle, detected by walking up from the
candidate parent with a hard cap of 100 hops; when the link is made, the
child's parent becomes the candidate parent. -/
theorem c6_chain_amended :
    (∀ e : MailEntry, chainOf e = chainAmendedSpec e) ∧
    (∀ (m : CMap) (p c : Str), would_create_cycle m p c = true → linkPair m p c = m) ∧
    (∀ (m : CMap) (p c : Str), p ≠ c → would_create_cycle m p c = false →
       (getC m c).isSome = true →
       (getC (linkPair m p c) c).map Container.parent = some (some p)) := by
  have hmem : ∀ (a : Str) (l : List Str), l.contains a = true ↔ a ∈ l :=
    fun _ _ => List.elem_iff
  have hcontains : ∀ (a : Str) (l : List Str), l.contains a = false ↔ a ∉ l := by
    intro a l
    constructor
    · intro hf hm
      rw [(hmem a l).2 hm] at hf
      exact absurd hf (by decide)
    · intro hm
      cases hx : l.contains a with
      | false => rfl
      | true => exact absurd ((hmem a l).1 hx) hm
  have hcond : ∀ (nid : Str) (refs : List Str),
      (((! nid.isEmpty) && (! refs.contains nid)) = true) ↔ (nid ≠ [] ∧ nid ∉ refs) := by
    intro nid refs
    constructor
    · intro h
      have h1 : nid.isEmpty = false := by
        cases hx : nid.isEmpty
        · rfl
        · rw [hx] at h
          simp at h
      have h2 : refs.contains nid = false := by
        cases hx : refs.contains nid
        · rfl
        · rw [hx] at h
          simp at h
      exact ⟨List.isEmpty_eq_false.1 h1, (hcontains _ _).1 h2⟩
    · rintro ⟨h1, h2⟩
      have e1 : nid.isEmpty = false := List.isEmpty_eq_false.2 h1
      have e2 : refs.contains nid = false := (hcontains _ _).2 h2
      rw [e1, e2]
      rfl
  refine ⟨?_, ?_, ?_⟩
  · intro e
    cases hirt : e.in_reply_to with
    | none => simp [chainOf, refsOf, chainAmendedSpec, hirt]
    | some irt =>
      simp only [chainOf, refsOf, chainAmendedSpec, hirt]
      exact congrArg (fun l => l ++ [normalize_id e.message_id])
        (if_congr (hcond _ _) rfl rfl)
  · intro m p c hcyc
    unfold linkPair
    by_cases hpc : p = c
    · rw [if_pos hpc]
    · rw [if_neg hpc, if_pos hcyc]
  · intro m p c hpc hcyc hsome
    have key : ∀ m1 : CMap, (getC m1 c).isSome = true →
        (getC (modifyC (modifyC m1 c (fun cont => { cont with parent := some p })) p
          (fun cont => if cont.children.contains c then cont
                       else { cont with children := cont.children ++ [c] })) c).map
          Container.parent = some (some p) := by
      intro m1 h1
      rw [getC_modifyC_other _ p c _ (fun hx => hpc hx.symm)]
      rw [getC_modifyC_self]
      rcases Option.isSome_iff_exists.1 h1 with ⟨c0, hc0⟩
      rw [hc0]
      rfl
    cases hold : (getC m c).bind (fun cont => cont.parent) with
    | none =>
      simp only [linkPair, if_neg hpc, hcyc, Bool.false_eq_true, if_false, hold]
      exact key m hsome
    | some oldP =>
      by_cases holdp : oldP ≠ p
      · simp only [linkPair, if_neg hpc, hcyc, Bool.false_eq_true, if_false, hold,
          if_pos holdp]
        refine key _ ?_
        rw [getC_modifyC_isSome]
        exact hsome
      · simp only [linkPair, if_neg hpc, hcyc, Bool.false_eq_true, if_false, hold,
          if_neg holdp]
        exact key m hsome

/-- Witness for the amended claim C6: linking two fresh containers makes
the second the child of the first. -/
theorem c6_chain_amended_witness :
    (getC (linkPair cmapC6 ['a'] ['b']) ['b']).map Container.parent = some (some ['a']) :=
  c6_chain_amended.2.2 cmapC6 ['a'] ['b'] (by decide) (by decide) (by decide)

/-! ### Thread node ordering -/

theorem mem_upsertGroup :
    ∀ (acc : List (Str × List Str)) (k v : Str) (g : Str × List Str),
      g ∈ upsertGroup acc k v → ∀ r ∈ g.2, (∃ g0 ∈ acc, r ∈ g0.2) ∨ r = v := by
  intro acc
  induction acc with
  | nil =>
    intro k v g hg r hr
    simp only [upsertGroup, List.mem_singleton] at hg
    subst hg
    simp only [List.mem_singleton] at hr
    exact Or.inr hr
  | cons p rest ih =>
    intro k v g hg r hr
    obtain ⟨k0, vs⟩ := p
    by_cases h0 : (k0 == k) = true
    · simp only [upsertGroup, if_pos h0] at hg
      rcases List.mem_cons.1 hg with hge | hgr
      · subst hge
        rcases List.mem_append.1 hr with hv | hv
        · exact Or.inl ⟨(k0, vs), List.mem_cons_self _ _, hv⟩
        · right
          simpa using hv
      · exact Or.inl ⟨g, List.mem_cons_of_mem _ hgr, hr⟩
    · simp only [upsertGroup, if_neg h0] at hg
      rcases List.mem_cons.1 hg with hge | hgr
      · subst hge
        exact Or.inl ⟨(k0, vs), List.mem_cons_self _ _, hr⟩
      · rcases ih k v g hgr r hr with ⟨g0, hg0, hrg0⟩ | hv
        · exact Or.inl ⟨g0, List.mem_cons_of_mem _ hg0, hrg0⟩
        · exact Or.inr hv

theorem foldl_upsertGroup_inv (f : Str → Str) (P : Str → Prop) :
    ∀ (l : List Str) (acc : List (Str × List Str)),
      (∀ g ∈ acc, ∀ r ∈ g.2, P r) → (∀ x ∈ l, P x) →
      ∀ g ∈ l.foldl (fun a rid => upsertGroup a (f rid) rid) acc, ∀ r ∈ g.2, P r := by
  intro l
  induction l with
  | nil =>
    intro acc hacc _ g hg r hr
    exact hacc g hg r hr
  | cons x xs ih =>
    intro acc hacc hl g hg r hr
    refine ih (upsertGroup acc (f x) x) ?_ (fun y hy => hl y (List.mem_cons_of_mem x hy))
      g hg r hr
    intro g0 hg0 r0 hr0
    rcases mem_upsertGroup acc (f x) x g0 hg0 r0 hr0 with ⟨g1, hg1, hr1⟩ | hveq
    · exact hacc g1 hg1 r0 hr1
    · exact hveq ▸ hl x (List.mem_cons_self x xs)

theorem groupBySubject_mem_roots (rootIds : List Str) (m : CMap)
    (entries : List MailEntry) :
    ∀ g ∈ groupBySubject rootIds m entries, ∀ r ∈ g.2, r ∈ rootIds := by
  intro g hg r hr
  exact foldl_upsertGroup_inv (fun rid => root_subject rid m entries) (· ∈ rootIds)
    rootIds [] (fun g0 hg0 => (List.not_mem_nil g0 hg0).elim) (fun x hx => hx) g hg r hr

/-- Claim C5, counterexample to the claim as stated.  With a root dated
after its reply, the thread's node list is the date-sorted list, not the
raw depth-first flatten order the claim describes. -/
theorem c5_counterexample :
    (build_threads exC5).map Thread.nodes = [[(1, 1), (0, 0)]] ∧
    flattenAll (buildContainers exC5) exC5 (rootIdsOf (buildContainers exC5)) =
      [(0, 0), (1, 1)] := by
  exact ⟨by decide, by decide⟩

/-- Claim C5 as amended: every thread's node list is weakly ascending by
entry date, and is the stable sort by date of the depth-first flatten of a
set of roots of the container forest (hence a permutation of that flatten
order). -/
theorem c5_flatten_amended :
    ∀ (entries : List MailEntry), ∀ t ∈ build_threads entries,
      List.Pairwise (fun a b => nodeDate entries a ≤ nodeDate entries b) t.nodes ∧
      ∃ roots : List Str,
        (∀ rt ∈ roots, rt ∈ rootIdsOf (buildContainers entries)) ∧
        t.nodes = List.insertionSort
          (fun a b => nodeDate entries a ≤ nodeDate entries b)
          (flattenAll (buildContainers entries) entries roots) ∧
        t.nodes.Perm (flattenAll (buildContainers entries) entries roots) := by
  intro entries t ht
  by_cases he : entries = []
  · rw [he] at ht
    simp [build_threads] at ht
  · simp only [build_threads, if_neg he] at ht
    have ht2 := (List.perm_insertionSort _ _).mem_iff.1 ht
    rcases List.mem_filterMap.1 ht2 with ⟨g, hg, hgt⟩
    simp only [buildThreadOfGroup] at hgt
    by_cases hraw : flattenAll (buildContainers entries) entries g.2 = []
    · rw [if_pos hraw] at hgt
      cases hgt
    · rw [if_neg hraw] at hgt
      have hnodes : t.nodes = List.insertionSort
          (fun a b => nodeDate entries a ≤ nodeDate entries b)
          (flattenAll (buildContainers entries) entries g.2) := by
        cases hgt
        rfl
      haveI : IsTotal (Nat × Nat) (fun a b => nodeDate entries a ≤ nodeDate entries b) :=
        ⟨fun a b => Int.le_total _ _⟩
      haveI : IsTrans (Nat × Nat) (fun a b => nodeDate entries a ≤ nodeDate entries b) :=
        ⟨fun _ _ _ hab hbc => le_trans hab hbc⟩
      refine ⟨?_, g.2, ?_, hnodes, ?_⟩
      · rw [hnodes]
        exact List.sorted_insertionSort _ _
      · intro rt hrt
        exact groupBySubject_mem_roots _ _ _ g hg rt hrt
      · rw [hnodes]
        exact List.perm_insertionSort _ _

/-- Witness for the amended claim C5: the single thread built from the
two-entry example has its nodes weakly ascending by date. -/
theorem c5_flatten_amended_witness :
    List.Pairwise (fun a b => nodeDate exC5 a ≤ nodeDate exC5 b)
      ((build_threads exC5).headD
        { root_message_id := [], subject := [], total_count := 0,
          date_range := (0, 0), nodes := [] }).nodes :=
  (c5_flatten_amended exC5
    ((build_threads exC5).headD
      { root_message_id := [], subject := [], total_count := 0,
        date_range := (0, 0), nodes := [] })
    (by decide)).1

end Mboxshell
